import Mathlib

/-!
A verification development for a video download service consisting of a
format resolver (building a menu of downloadable format options from the
stream descriptors offered by a catalog service), two download
orchestrators (a progressive single-stream path and a mux path combining a
video-only and an audio-only stream), and an in-memory keyed job store.

Numeric conventions: JavaScript `Math.round(num/den)` on nonnegative exact
ratios is embedded as `jsRoundRatio num den` over `Nat` (proved equal to
the Mathlib `round` function on `ℚ`); fractional external progress percentages are
modelled as exact rationals.  Stream itags are modelled by their decimal
string form, since the code always compares `itag.toString()` against
request strings.
-/

/-- JavaScript `Math.round (num / den)` for natural `num`, `den` with
`den > 0`: the floor of `num/den + 1/2`, computed in `Nat` arithmetic. -/
def jsRoundRatio (num den : Nat) : Nat := (2 * num + den) / (2 * den)

/-- Boolean test that `pat` occurs at the head of `s`, modelling the
JavaScript startsWith method on char lists. -/
def charsStartWith : List Char → List Char → Bool
  | _, [] => true
  | [], _ :: _ => false
  | a :: s, b :: p => a == b && charsStartWith s p

/-- Boolean test that `pat` occurs contiguously anywhere in `s`, modelling
the JavaScript includes method on char lists. -/
def charsInclude : List Char → List Char → Bool
  | [], pat => charsStartWith [] pat
  | c :: t, pat => charsStartWith (c :: t) pat || charsInclude t pat

/-- JavaScript `s.startsWith(pat)`. -/
def strStartsWith (s pat : String) : Bool := charsStartWith s.data pat.data

/-- JavaScript `s.includes(pat)`. -/
def strIncludes (s pat : String) : Bool := charsInclude s.data pat.data

/-- Order-preserving deduplication keeping first occurrences, as performed
by `Array.from(new Set(...))` in the source. -/
def dedupKeepFirst : List String → List String
  | [] => []
  | a :: l => a :: (dedupKeepFirst l).filter (fun b => b ≠ a)

/-- Insert into a list sorted descending by `key`, after any element of
equal key: the stable-descending insertion used to model the stable
JavaScript `sort((a, b) => key b - key a)`. -/
def insertDescBy (key : String → Nat) (a : String) : List String → List String
  | [] => [a]
  | b :: l => if key a > key b then a :: b :: l else b :: insertDescBy key a l

/-- Stable descending sort by `key`, modelling the JavaScript stable
`Array.prototype.sort` with comparator `key b - key a`. -/
def sortDescBy (key : String → Nat) (l : List String) : List String :=
  l.foldl (fun acc a => insertDescBy key a acc) []

/-- One stream descriptor from the catalog adapter (`ytdl` format entry),
restricted to the fields the core reads. -/
structure StreamDescriptor where
  itag : String
  container : Option String := none
  videoCodec : Option String := none
  audioCodec : Option String := none
  qualityLabel : Option String := none
  hasVideo : Bool := false
  hasAudio : Bool := false
  audioBitrate : Option Nat := none
  contentLength : Option Nat := none
deriving DecidableEq, Repr

/-- One entry of the format menu returned by the video-info route
(`processedVideoFormats` / `processedAudioFormats` element shape). -/
structure FormatOption where
  itag : Option String := none
  quality : String
  format : String
  container : String
  mediaType : String := "video"
  hasAudio : Bool := true
  downloadMethod : String
  videoItag : Option String := none
  audioItag : Option String := none
  fileSize : Option String := none
deriving DecidableEq, Repr

/-- Truthiness-guarded codec test `f.audioCodec && f.audioCodec.includes(pat)`
from the audio compatibility filters of the source. -/
def audioCodecIncludes (f : StreamDescriptor) (pat : String) : Bool :=
  match f.audioCodec with
  | some c => strIncludes c pat
  | none => false

/-- The resolution-priority table used to sort quality labels
(`getResolutionPriority` in the source). -/
def getResolutionPriority (quality : String) : Nat :=
  if strIncludes quality "2160p" || strIncludes quality "4K" then 9000
  else if strIncludes quality "1440p" || strIncludes quality "2K" then 8000
  else if strIncludes quality "1080p" then 7000
  else if strIncludes quality "720p" then 6000
  else if strIncludes quality "480p" then 5000
  else if strIncludes quality "360p" then 4000
  else if strIncludes quality "240p" then 3000
  else if strIncludes quality "144p" then 2000
  else 1000

/-- Head of the descending bitrate sort
`.sort((a, b) => (b.audioBitrate || 0) - (a.audioBitrate || 0))[0]` used by
the source: the earliest stream of maximal `audioBitrate || 0`. -/
def highestBitrate : List StreamDescriptor → Option StreamDescriptor
  | [] => none
  | f :: rest =>
    match highestBitrate rest with
    | none => some f
    | some g => if (g.audioBitrate.getD 0) > (f.audioBitrate.getD 0) then some g else some f

/-- File size display string, `Math.round(bytes / (1024 * 1024))` plus a MB suffix. -/
def mbString (bytes : Nat) : String := toString (jsRoundRatio bytes (1024 * 1024)) ++ " MB"

/-- The webm/opus audio compatibility filter: container equals webm, or the
audio codec includes opus. -/
def isWebmAudio (f : StreamDescriptor) : Bool :=
  f.container == some "webm" || audioCodecIncludes f "opus"

/-- The quality-label enumeration of the resolver: distinct labels of the
progressive and video-only sets, sorted descending by resolution priority
(`allVideoQualities` in the source). -/
def allVideoQualities (progressiveVideoFormats videoOnlyFormats : List StreamDescriptor) :
    List String :=
  sortDescBy getResolutionPriority
    (dedupKeepFirst ((progressiveVideoFormats ++ videoOnlyFormats).filterMap (·.qualityLabel)))

/-- Container preference lookup of the resolver: a stream at the given
quality label with container mp4, else webm, else any. -/
def findByQuality (formats : List StreamDescriptor) (qualityLabel : String) :
    Option StreamDescriptor :=
  (formats.find? fun f =>
    f.qualityLabel == some qualityLabel && f.container == some "mp4") <|>
  (formats.find? fun f =>
    f.qualityLabel == some qualityLabel && f.container == some "webm") <|>
  (formats.find? fun f => f.qualityLabel == some qualityLabel)

/-- The progressive menu entry pushed by the resolver. -/
def mkProgressiveOption (qualityLabel : String) (pf : StreamDescriptor) : FormatOption :=
  { itag := some pf.itag, quality := qualityLabel, format := pf.container.getD "mp4",
    container := pf.container.getD "mp4", mediaType := "video", hasAudio := true,
    downloadMethod := "progressive", fileSize := pf.contentLength.map mbString }

/-- The mux menu entry pushed by the resolver, from the chosen video-only
stream, the chosen audio stream and the output container. -/
def mkMuxOption (qualityLabel outputContainer : String) (vf af : StreamDescriptor) :
    FormatOption :=
  { quality := qualityLabel, format := outputContainer, container := outputContainer,
    mediaType := "video", hasAudio := true, downloadMethod := "mux",
    videoItag := some vf.itag, audioItag := some af.itag,
    fileSize := if vf.contentLength.getD 0 + af.contentLength.getD 0 > 0 then
      some (mbString (vf.contentLength.getD 0 + af.contentLength.getD 0)) else none }

/-- The loop body of the resolver for one quality label: at most one
`FormatOption` (progressive preferred, else a mux pairing), `none` when the
label is omitted from the menu. -/
def resolveQualityOption (progressiveVideoFormats videoOnlyFormats audioFormats :
    List StreamDescriptor) (qualityLabel : String) : Option FormatOption :=
  match findByQuality progressiveVideoFormats qualityLabel with
  | some pf => some (mkProgressiveOption qualityLabel pf)
  | none =>
    match findByQuality videoOnlyFormats qualityLabel with
    | none => none
    | some vf =>
      if audioFormats.isEmpty then none
      else if vf.container.getD "mp4" == "mp4" ||
          strStartsWith (vf.videoCodec.getD "") "avc1" then
        match highestBitrate (audioFormats.filter (audioCodecIncludes · "mp4a")) with
        | some af => some (mkMuxOption qualityLabel "mp4" vf af)
        | none =>
          match videoOnlyFormats.find? (fun f =>
              f.qualityLabel == some qualityLabel && f.container == some "webm") with
          | some _ =>
            match highestBitrate (audioFormats.filter isWebmAudio) with
            | some af => some (mkMuxOption qualityLabel "webm" vf af)
            | none => none
          | none => none
      else if vf.container.getD "mp4" == "webm" then
        match highestBitrate (audioFormats.filter isWebmAudio) with
        | some af => some (mkMuxOption qualityLabel "webm" vf af)
        | none => none
      else none

/-- The video portion of the resolver menu (`processedVideoFormats`):
one pass over the sorted distinct quality labels, each contributing at most
one option. -/
def processVideoFormats (formats : List StreamDescriptor) : List FormatOption :=
  let progressiveVideoFormats :=
    formats.filter fun f => f.hasVideo && f.hasAudio && f.qualityLabel.isSome
  let videoOnlyFormats :=
    formats.filter fun f => f.hasVideo && !f.hasAudio && f.qualityLabel.isSome
  let audioFormats := formats.filter fun f => f.hasAudio && !f.hasVideo
  (allVideoQualities progressiveVideoFormats videoOnlyFormats).filterMap
    (resolveQualityOption progressiveVideoFormats videoOnlyFormats audioFormats)

/-- One persisted download job record (the downloads table row shape).
Timestamps are modelled as natural numbers. -/
structure Download where
  id : String
  videoId : String := ""
  title : String := ""
  thumbnail : Option String := none
  duration : Option String := none
  views : Option String := none
  author : Option String := none
  quality : String := ""
  format : String := ""
  status : String := "pending"
  progress : Int := 0
  filePath : Option String := none
  fileSize : Option String := none
  itag : Option String := none
  downloadMethod : String := "progressive"
  videoItag : Option String := none
  audioItag : Option String := none
  createdAt : Nat := 0
  updatedAt : Nat := 0
deriving DecidableEq, Repr

/-- A partial-fields update map as passed to updateDownload: a present
field replaces the stored one, an absent field leaves it alone. -/
structure PartialDownload where
  id : Option String := none
  videoId : Option String := none
  title : Option String := none
  thumbnail : Option (Option String) := none
  duration : Option (Option String) := none
  views : Option (Option String) := none
  author : Option (Option String) := none
  quality : Option String := none
  format : Option String := none
  status : Option String := none
  progress : Option Int := none
  filePath : Option (Option String) := none
  fileSize : Option (Option String) := none
  itag : Option (Option String) := none
  downloadMethod : Option String := none
  videoItag : Option (Option String) := none
  audioItag : Option (Option String) := none
  createdAt : Option Nat := none
  updatedAt : Option Nat := none
deriving DecidableEq, Repr

/-- The spread merge performed by updateDownload in the store:
all fields of `existing` overridden by the present fields of `updates`,
then updatedAt overridden by the update time. -/
def applyUpdates (existing : Download) (updates : PartialDownload) (now : Nat) : Download :=
  { id := updates.id.getD existing.id,
    videoId := updates.videoId.getD existing.videoId,
    title := updates.title.getD existing.title,
    thumbnail := updates.thumbnail.getD existing.thumbnail,
    duration := updates.duration.getD existing.duration,
    views := updates.views.getD existing.views,
    author := updates.author.getD existing.author,
    quality := updates.quality.getD existing.quality,
    format := updates.format.getD existing.format,
    status := updates.status.getD existing.status,
    progress := updates.progress.getD existing.progress,
    filePath := updates.filePath.getD existing.filePath,
    fileSize := updates.fileSize.getD existing.fileSize,
    itag := updates.itag.getD existing.itag,
    downloadMethod := updates.downloadMethod.getD existing.downloadMethod,
    videoItag := updates.videoItag.getD existing.videoItag,
    audioItag := updates.audioItag.getD existing.audioItag,
    createdAt := updates.createdAt.getD existing.createdAt,
    updatedAt := now }

/-- Lookup in the keyed map of the in-memory store. -/
def getKey : List (String × Download) → String → Option Download
  | [], _ => none
  | (k, v) :: rest, id => if k == id then some v else getKey rest id

/-- Keyed insertion with in-place replacement, the JavaScript Map set
behaviour: an existing key keeps its position, a new key is appended. -/
def setKey : List (String × Download) → String → Download → List (String × Download)
  | [], id, v => [(id, v)]
  | (k, w) :: rest, id, v => if k == id then (id, v) :: rest else (k, w) :: setKey rest id v

/-- The in-memory store (MemStorage), holding only the downloads map the
claims are about. -/
structure MemStorage where
  downloads : List (String × Download)
deriving DecidableEq, Repr

/-- The creation-time fields of a download record (insert shape, without
id, createdAt and updatedAt). -/
structure InsertDownload where
  videoId : String := ""
  title : String := ""
  thumbnail : Option String := none
  duration : Option String := none
  views : Option String := none
  author : Option String := none
  quality : String := ""
  format : String := ""
  status : String := "pending"
  progress : Int := 0
  filePath : Option String := none
  fileSize : Option String := none
  itag : Option String := none
  downloadMethod : String := "progressive"
  videoItag : Option String := none
  audioItag : Option String := none
deriving DecidableEq, Repr

/-- createDownload of the store: build the record with the generated id
and both timestamps set to the creation time, and store it under the id. -/
def createDownload (s : MemStorage) (ins : InsertDownload) (newId : String) (now : Nat) :
    Download × MemStorage :=
  let download : Download :=
    { id := newId, videoId := ins.videoId, title := ins.title,
      thumbnail := ins.thumbnail, duration := ins.duration, views := ins.views,
      author := ins.author, quality := ins.quality, format := ins.format,
      status := ins.status, progress := ins.progress, filePath := ins.filePath,
      fileSize := ins.fileSize, itag := ins.itag,
      downloadMethod := ins.downloadMethod, videoItag := ins.videoItag,
      audioItag := ins.audioItag, createdAt := now, updatedAt := now }
  (download, ⟨setKey s.downloads newId download⟩)

/-- updateDownload of the store: absent id returns absent and leaves the
store unchanged; otherwise the spread merge is stored back under the same
key and returned. -/
def updateDownload (s : MemStorage) (id : String) (updates : PartialDownload) (now : Nat) :
    Option Download × MemStorage :=
  match getKey s.downloads id with
  | none => (none, s)
  | some existing =>
    let updated := applyUpdates existing updates now
    (some updated, ⟨setKey s.downloads id updated⟩)

/-- getDownload of the store. -/
def getDownload (s : MemStorage) (id : String) : Option Download := getKey s.downloads id

/-- The audio-style target containers of the progressive path (the
audioFormats list in startDownload). -/
def audioStyleFormats : List String := ["webm", "m4a", "opus", "mp4a", "aac", "mp3"]

/-- Audio stream selection of the progressive path: exact requested itag
restricted to audio-only streams, else the highest-bitrate audio-only
stream, else any audio-only stream. -/
def findAudioFormat (formats : List StreamDescriptor) (itag : String) :
    Option StreamDescriptor :=
  match formats.find? (fun f => f.itag == itag && f.hasAudio && !f.hasVideo) with
  | some f => some f
  | none =>
    match highestBitrate (formats.filter (fun f => f.hasAudio && !f.hasVideo)) with
    | some f => some f
    | none => formats.find? (fun f => f.hasAudio && !f.hasVideo)

/-- Output container derivation of the mux path, from the real codecs and
containers of the two chosen streams. The client-supplied format hint is in
scope at this point in the source but is not consulted. -/
def muxOutputContainer (_clientFormat : String) (videoFormat audioFormat : StreamDescriptor) :
    String :=
  if strStartsWith (videoFormat.videoCodec.getD "") "avc1" &&
      strIncludes (audioFormat.audioCodec.getD "") "mp4a" then "mp4"
  else if videoFormat.container == some "webm" && audioFormat.container == some "webm" then
    "webm"
  else if strIncludes (audioFormat.audioCodec.getD "") "opus" &&
      strStartsWith (videoFormat.videoCodec.getD "") "vp9" then "webm"
  else "mp4"

/-- Rule of claim C3, written from the specification wording: AVC-family
video with AAC-family (mp4a) audio gives mp4; both streams in container
webm give webm; opus audio with vp9 video gives webm; every other
combination gives mp4 as the default. -/
def specOutputContainer (videoFormat audioFormat : StreamDescriptor) : String :=
  if strStartsWith (videoFormat.videoCodec.getD "") "avc1" &&
      strIncludes (audioFormat.audioCodec.getD "") "mp4a" then "mp4"
  else if videoFormat.container == some "webm" && audioFormat.container == some "webm" then
    "webm"
  else if strIncludes (audioFormat.audioCodec.getD "") "opus" &&
      strStartsWith (videoFormat.videoCodec.getD "") "vp9" then "webm"
  else "mp4"

/-- Directory of final outputs. -/
def downloadsDir : String := "downloads"

/-- Final output path of a job for a given container extension. -/
def finalPath (downloadId container : String) : String :=
  downloadsDir ++ "/" ++ downloadId ++ "." ++ container

/-- Temporary file of the video leg of a mux download. -/
def videoTempPath (downloadId : String) : String :=
  downloadsDir ++ "/temp/" ++ downloadId ++ "_video.temp"

/-- Temporary file of the audio leg of a mux download. -/
def audioTempPath (downloadId : String) : String :=
  downloadsDir ++ "/temp/" ++ downloadId ++ "_audio.temp"

/-- File system contents as a set of paths, represented without
duplicates. -/
def fsAdd (fs : List String) (p : String) : List String :=
  if p ∈ fs then fs else p :: fs

/-- Deletion of a path (unlinkSync). -/
def fsRemove (fs : List String) (p : String) : List String :=
  fs.filter (fun q => q ≠ p)

/-- The guarded deletion idiom of the source: existsSync then unlinkSync. -/
def unlinkIfExists (fs : List String) (p : String) : List String :=
  if p ∈ fs then fsRemove fs p else fs

/-- The catch-block cleanup of the mux path: both temporary files and the
partially-written final output under both possible container extensions. -/
def muxErrorCleanup (downloadId : String) (fs : List String) : List String :=
  let fs1 := unlinkIfExists fs (videoTempPath downloadId)
  let fs2 := unlinkIfExists fs1 (audioTempPath downloadId)
  let fs3 := unlinkIfExists fs2 (finalPath downloadId "mp4")
  unlinkIfExists fs3 (finalPath downloadId "webm")

/-- One store write as issued by the orchestrators (a partial-fields map).
Absent fields are untouched. -/
def failedUpdate : PartialDownload := { status := some "failed", progress := some 0 }

/-- The first write of every orchestrrated job: mark it downloading. -/
def downloadingUpdate : PartialDownload := { status := some "downloading" }

/-- Progress write of one fetch chunk event in the progressive path. The
fetched fraction occupies the full percentage scale, except that an mp3
target scales it into 0-70. -/
def audioChunkUpdate (isMp3 : Bool) (e : Nat × Nat) : PartialDownload :=
  { progress := some (if isMp3 then (jsRoundRatio (e.1 * 70) e.2 : Int)
      else (jsRoundRatio (e.1 * 100) e.2 : Int)),
    fileSize := some (some (mbString e.2)) }

/-- Progress write of one chunk event in the progressive video branch. -/
def videoChunkUpdate (e : Nat × Nat) : PartialDownload :=
  { progress := some (jsRoundRatio (e.1 * 100) e.2 : Int),
    fileSize := some (some (mbString e.2)) }

/-- Progress write of one ffmpeg mp3-conversion event: the external
percentage rescaled into 75-100. -/
def mp3ConvUpdate (percent : ℚ) : PartialDownload :=
  { progress := some (round (75 + percent * (25 / 100))) }

/-- Progress write of one ffmpeg mux event: the external percentage
rescaled into 81-99. -/
def muxConvUpdate (percent : ℚ) : PartialDownload :=
  { progress := some (round (81 + percent * (18 / 100))) }

/-- Completion write with final path and size. -/
def completedUpdate (filePath : String) (sizeBytes : Nat) : PartialDownload :=
  { status := some "completed", progress := some 100,
    filePath := some (some filePath), fileSize := some (some (mbString sizeBytes)) }

/-- Total of the last chunk event (the totalBytes variable of the source,
zero when no event fired). -/
def lastTotal (events : List (Nat × Nat)) : Nat :=
  (events.getLast?).elim 0 (·.2)

/-- Outcome of the raw fetch of the progressive path. -/
inductive FetchOutcome where
  | earlyFail
  | fetchError (events : List (Nat × Nat))
  | fetchDone (events : List (Nat × Nat))
deriving DecidableEq, Repr

/-- Outcome of the mp3 conversion step. -/
inductive ConvOutcome where
  | convFail (percents : List ℚ)
  | convDone (percents : List ℚ) (finalSize : Nat)
deriving DecidableEq, Repr

/-- Store writes of the audio branch of startDownload over one fetch
outcome and (for an mp3 target) one conversion outcome. The earlyFail case
covers a catalog failure or an empty audio-only selection reaching the
outer catch. -/
def startDownloadAudioUpdates (downloadId actualContainer : String) (isMp3 : Bool)
    (o : FetchOutcome) (c : ConvOutcome) : List PartialDownload :=
  downloadingUpdate ::
  match o with
  | .earlyFail => [failedUpdate]
  | .fetchError events => events.map (audioChunkUpdate isMp3) ++ [failedUpdate]
  | .fetchDone events =>
    events.map (audioChunkUpdate isMp3) ++
    (if isMp3 then
      ({ progress := some 75 } : PartialDownload) ::
      match c with
      | .convFail percents => percents.map mp3ConvUpdate ++ [failedUpdate]
      | .convDone percents finalSize =>
        percents.map mp3ConvUpdate ++
          [completedUpdate (finalPath downloadId "mp3") finalSize]
    else
      [completedUpdate (finalPath downloadId actualContainer) (lastTotal events)])

/-- Outcome of the raw fetch of the progressive video branch. Unlike the
audio branch, the video branch installs an error handler only on the read
stream; the destination write stream has none, so a write-stream error is
kept distinct from a read-stream error. -/
inductive VideoFetchOutcome where
  | earlyFail
  | readError (events : List (Nat × Nat))
  | writeError (events : List (Nat × Nat))
  | streamEnd (events : List (Nat × Nat))
deriving DecidableEq, Repr

/-- Store writes of the video branch of startDownload over one fetch
outcome. The earlyFail case covers a catalog failure or a missing itag
reaching the outer catch; a read-stream error is handled and writes
failed; a write-stream error event has no listener, so it is an uncaught
exception and the run ends with no terminal store write; stream end writes
completed. -/
def startDownloadVideoUpdates (downloadId format : String) (o : VideoFetchOutcome) :
    List PartialDownload :=
  downloadingUpdate ::
  match o with
  | .earlyFail => [failedUpdate]
  | .readError events => events.map videoChunkUpdate ++ [failedUpdate]
  | .writeError events => events.map videoChunkUpdate
  | .streamEnd events =>
    events.map videoChunkUpdate ++
      [completedUpdate (finalPath downloadId format) (lastTotal events)]

/-- Video-branch outcome whose error event has no listener: the
orchestration is cut short by an uncaught exception before any terminal
store write. -/
def videoOutcomeCrashes : VideoFetchOutcome → Bool
  | .writeError _ => true
  | .earlyFail => false
  | .readError _ => false
  | .streamEnd _ => false

/-- Video-branch outcome that reaches the failed store write through a
handled error. -/
def videoOutcomeFails : VideoFetchOutcome → Bool
  | .earlyFail => true
  | .readError _ => true
  | .writeError _ => false
  | .streamEnd _ => false

/-- One progress event of either leg of the mux path. -/
inductive MuxEvent where
  | videoChunk (downloaded total : Nat)
  | audioChunk (downloaded total : Nat)
deriving DecidableEq, Repr

/-- The four mutable progress variables of startMuxDownload. -/
structure MuxProgressState where
  videoBytes : Nat := 0
  audioBytes : Nat := 0
  totalVideoBytes : Nat := 0
  totalAudioBytes : Nat := 0
deriving DecidableEq, Repr

/-- Effect of one progress event on the mux progress variables. -/
def stepMuxState (st : MuxProgressState) : MuxEvent → MuxProgressState
  | .videoChunk d t => { st with videoBytes := d, totalVideoBytes := t }
  | .audioChunk d t => { st with audioBytes := d, totalAudioBytes := t }

/-- The updateProgress closure of startMuxDownload: once both totals are
nonzero, write the aggregate percentage
round (((videoBytes / totalVideoBytes + audioBytes / totalAudioBytes) / 2) * 80)
(embedded as an exact integer rounding) and the combined size; otherwise
write nothing. -/
def updateProgress (st : MuxProgressState) : Option PartialDownload :=
  if st.totalVideoBytes > 0 && st.totalAudioBytes > 0 then
    some { progress := some (jsRoundRatio
             (40 * (st.videoBytes * st.totalAudioBytes + st.audioBytes * st.totalVideoBytes))
             (st.totalVideoBytes * st.totalAudioBytes) : Int),
           fileSize := some (some (mbString (st.totalVideoBytes + st.totalAudioBytes))) }
  else none

/-- Mux progress variables after a list of events. -/
def muxStateAfter (events : List MuxEvent) : MuxProgressState :=
  events.foldl stepMuxState {}

/-- Store writes emitted by the per-event updateProgress calls. -/
def muxEventUpdates : MuxProgressState → List MuxEvent → List PartialDownload
  | _, [] => []
  | st, e :: rest =>
    let st2 := stepMuxState st e
    match updateProgress st2 with
    | some u => u :: muxEventUpdates st2 rest
    | none => muxEventUpdates st2 rest

/-- Outcome of a mux download run. The boolean flags record which files had
been (perhaps partially) written when the failure struck. -/
inductive MuxOutcome where
  | formatNotFound
  | fetchFail (events : List MuxEvent) (videoWritten audioWritten : Bool)
  | muxFail (events : List MuxEvent) (percents : List ℚ) (finalWritten : Bool)
  | muxDone (events : List MuxEvent) (percents : List ℚ) (finalSize : Nat)
deriving DecidableEq, Repr

/-- Store writes of startMuxDownload over one outcome. -/
def startMuxDownloadUpdates (downloadId outputContainer : String) (o : MuxOutcome) :
    List PartialDownload :=
  downloadingUpdate ::
  match o with
  | .formatNotFound => [failedUpdate]
  | .fetchFail events _ _ => muxEventUpdates {} events ++ [failedUpdate]
  | .muxFail events percents _ =>
    muxEventUpdates {} events ++
      ({ progress := some 81 } : PartialDownload) ::
      percents.map muxConvUpdate ++ [failedUpdate]
  | .muxDone events percents finalSize =>
    muxEventUpdates {} events ++
      ({ progress := some 81 } : PartialDownload) ::
      percents.map muxConvUpdate ++
      [completedUpdate (finalPath downloadId outputContainer) finalSize]

/-- File-system effect of startMuxDownload over one outcome: temporary
files appear as the legs write them, the catch block cleans up on every
error, a successful mux deletes only the temporary files. -/
def startMuxDownloadFS (downloadId outputContainer : String) (o : MuxOutcome)
    (fs : List String) : List String :=
  match o with
  | .formatNotFound => muxErrorCleanup downloadId fs
  | .fetchFail _ videoWritten audioWritten =>
    let fs1 := if videoWritten then fsAdd fs (videoTempPath downloadId) else fs
    let fs2 := if audioWritten then fsAdd fs1 (audioTempPath downloadId) else fs1
    muxErrorCleanup downloadId fs2
  | .muxFail _ _ finalWritten =>
    let fs1 := fsAdd (fsAdd fs (videoTempPath downloadId)) (audioTempPath downloadId)
    let fs2 := if finalWritten then fsAdd fs1 (finalPath downloadId outputContainer) else fs1
    muxErrorCleanup downloadId fs2
  | .muxDone _ _ _ =>
    let fs1 := fsAdd (fsAdd fs (videoTempPath downloadId)) (audioTempPath downloadId)
    let fs2 := fsAdd fs1 (finalPath downloadId outputContainer)
    let fs3 := unlinkIfExists fs2 (videoTempPath downloadId)
    unlinkIfExists fs3 (audioTempPath downloadId)

/-- Error discriminator of a mux outcome. -/
def muxOutcomeFails : MuxOutcome → Bool
  | .formatNotFound => true
  | .fetchFail _ _ _ => true
  | .muxFail _ _ _ => true
  | .muxDone _ _ _ => false

/-- Error discriminator of the progressive path (the conversion outcome is
only consulted for an mp3 target after a finished fetch). -/
def progressiveFails (isMp3 : Bool) (o : FetchOutcome) (c : ConvOutcome) : Bool :=
  match o with
  | .earlyFail => true
  | .fetchError _ => true
  | .fetchDone _ =>
    isMp3 && (match c with | .convFail _ => true | .convDone _ _ => false)

/-- Job record after a list of store writes (the timestamps are irrelevant
to every stated property and are folded with a constant clock). -/
def applyAll (init : Download) (updates : List PartialDownload) : Download :=
  updates.foldl (fun j u => applyUpdates j u 0) init

/-- All intermediate job records along a list of store writes, the initial
record included. -/
def jobStates (init : Download) : List PartialDownload → List Download
  | [] => [init]
  | u :: us => init :: jobStates (applyUpdates init u 0) us

theorem jsRoundRatio_eq_round {d : Nat} (n : Nat) (hd : 0 < d) :
    (jsRoundRatio n d : ℤ) = round ((n : ℚ) / d) := by
  have hd0 : (d : ℚ) ≠ 0 := Nat.cast_ne_zero.mpr hd.ne'
  have h1 : (n : ℚ) / d + 1 / 2 = ((2 * n + d : Nat) : ℚ) / ((2 * d : Nat) : ℚ) := by
    push_cast
    field_simp
    ring
  have h2 : (0 : ℚ) ≤ ((2 * n + d : Nat) : ℚ) / ((2 * d : Nat) : ℚ) := by positivity
  rw [round_eq, h1, ← Int.natCast_floor_eq_floor h2, Nat.floor_div_nat, Nat.floor_natCast,
    jsRoundRatio]

theorem jsRoundRatio_le {n d k : Nat} (hd : 0 < d) (h : n ≤ k * d) :
    jsRoundRatio n d ≤ k := by
  have hlt : 2 * n + d < 2 * d * (k + 1) := by nlinarith
  have h2 := Nat.div_lt_of_lt_mul hlt
  unfold jsRoundRatio
  omega

theorem roundQ_mono {x y : ℚ} (h : x ≤ y) : round x ≤ round y := by
  rw [round_eq, round_eq]
  exact Int.floor_le_floor (by linarith)

theorem round_nonneg_of_nonneg {x : ℚ} (h : 0 ≤ x) : 0 ≤ round x := by
  have h0 : round (0 : ℚ) ≤ round x := roundQ_mono h
  simpa using h0

theorem round_le_hundred {x : ℚ} (h : x ≤ 100) : round x ≤ 100 := by
  have h0 : round x ≤ round (100 : ℚ) := roundQ_mono h
  have h1 : round (100 : ℚ) = 100 := by norm_num [round_eq]
  omega

theorem insertDescBy_perm (key : String → Nat) (a : String) :
    ∀ l, List.Perm (insertDescBy key a l) (a :: l)
  | [] => List.Perm.refl _
  | b :: l => by
    unfold insertDescBy
    split
    · exact List.Perm.refl _
    · exact List.Perm.trans (List.Perm.cons b (insertDescBy_perm key a l))
        (List.Perm.swap a b l)

theorem foldl_insertDescBy_perm (key : String → Nat) :
    ∀ (l acc : List String),
      List.Perm (l.foldl (fun acc a => insertDescBy key a acc) acc) (acc ++ l)
  | [], acc => by simp
  | a :: l, acc => by
    simp only [List.foldl]
    refine List.Perm.trans (foldl_insertDescBy_perm key l (insertDescBy key a acc)) ?_
    refine List.Perm.trans (List.Perm.append_right l (insertDescBy_perm key a acc)) ?_
    exact List.perm_middle.symm

theorem sortDescBy_perm (key : String → Nat) (l : List String) :
    List.Perm (sortDescBy key l) l := by
  simpa [sortDescBy] using foldl_insertDescBy_perm key l []

theorem dedupKeepFirst_nodup : ∀ l : List String, (dedupKeepFirst l).Nodup
  | [] => List.nodup_nil
  | a :: l => by
    unfold dedupKeepFirst
    refine List.Nodup.cons ?_ ((dedupKeepFirst_nodup l).filter _)
    intro h
    have h2 := List.of_mem_filter h
    simp at h2

theorem allVideoQualities_nodup (progs vids : List StreamDescriptor) :
    (allVideoQualities progs vids).Nodup := by
  unfold allVideoQualities
  exact ((sortDescBy_perm getResolutionPriority _).nodup_iff).mpr (dedupKeepFirst_nodup _)

theorem highestBitrate_eq_none : ∀ {l : List StreamDescriptor},
    highestBitrate l = none ↔ l = [] := by
  intro l
  cases l with
  | nil => simp [highestBitrate]
  | cons f rest =>
    simp only [highestBitrate]
    constructor
    · intro h
      cases hr : highestBitrate rest with
      | none => rw [hr] at h; simp at h
      | some g => rw [hr] at h; dsimp at h; split at h <;> simp_all
    · intro h
      exact absurd h (List.cons_ne_nil f rest)

theorem highestBitrate_mem : ∀ {l : List StreamDescriptor} {f : StreamDescriptor},
    highestBitrate l = some f → f ∈ l
  | [], f => by intro h; simp [highestBitrate] at h
  | g :: rest, f => by
    simp only [highestBitrate]
    cases hr : highestBitrate rest with
    | none => intro h; simp at h; simp [h]
    | some m =>
      dsimp
      split
      · intro h
        simp only [Option.some.injEq] at h
        exact List.mem_cons_of_mem g (highestBitrate_mem (h ▸ hr))
      · intro h
        simp only [Option.some.injEq] at h
        simp [← h]

theorem highestBitrate_max : ∀ {l : List StreamDescriptor} {f : StreamDescriptor},
    highestBitrate l = some f →
      ∀ g ∈ l, g.audioBitrate.getD 0 ≤ f.audioBitrate.getD 0
  | [], f => by intro h; simp [highestBitrate] at h
  | g :: rest, f => by
    simp only [highestBitrate]
    cases hr : highestBitrate rest with
    | none =>
      intro h x hx
      simp only [Option.some.injEq] at h
      have : rest = [] := highestBitrate_eq_none.mp hr
      subst this
      simp at hx
      simp [hx, ← h]
    | some m =>
      dsimp
      split
      · intro h x hx
        simp only [Option.some.injEq] at h
        subst h
        rcases List.mem_cons.mp hx with rfl | hx2
        · omega
        · exact highestBitrate_max hr x hx2
      · intro h x hx
        simp only [Option.some.injEq] at h
        subst h
        rcases List.mem_cons.mp hx with rfl | hx2
        · exact le_refl _
        · have h3 := highestBitrate_max hr x hx2
          omega

theorem getKey_setKey_self : ∀ (l : List (String × Download)) (k : String) (v : Download),
    getKey (setKey l k v) k = some v
  | [], k, v => by
    simp only [setKey, getKey]
    rw [if_pos (beq_self_eq_true k)]
  | (k2, w) :: rest, k, v => by
    simp only [setKey]
    by_cases hk : k2 = k
    · subst hk
      rw [if_pos (beq_self_eq_true k2)]
      simp only [getKey]
      rw [if_pos (beq_self_eq_true k2)]
    · rw [if_neg (by simpa using hk)]
      simp only [getKey]
      rw [if_neg (by simpa using hk)]
      exact getKey_setKey_self rest k v

theorem getKey_setKey_ne : ∀ (l : List (String × Download)) (k k2 : String) (v : Download),
    k2 ≠ k → getKey (setKey l k v) k2 = getKey l k2
  | [], k, k2, v, h => by
    simp only [setKey, getKey]
    rw [if_neg (by simp only [beq_iff_eq]; exact fun he => h he.symm)]
  | (k3, w) :: rest, k, k2, v, h => by
    simp only [setKey]
    by_cases hk3 : k3 = k
    · subst hk3
      rw [if_pos (beq_self_eq_true k3)]
      simp only [getKey]
      rw [if_neg (by simp only [beq_iff_eq]; exact fun he => h he.symm),
        if_neg (by simp only [beq_iff_eq]; exact fun he => h he.symm)]
    · rw [if_neg (by simpa using hk3)]
      simp only [getKey]
      by_cases hk32 : (k3 == k2) = true
      · rw [if_pos hk32, if_pos hk32]
      · rw [if_neg hk32, if_neg hk32]
        exact getKey_setKey_ne rest k k2 v h

theorem mem_of_mem_unlinkIfExists {fs : List String} {p q : String}
    (h : q ∈ unlinkIfExists fs p) : q ∈ fs := by
  unfold unlinkIfExists at h
  split at h
  · exact (List.mem_filter.mp h).1
  · exact h

theorem not_mem_unlinkIfExists_self (fs : List String) (p : String) :
    p ∉ unlinkIfExists fs p := by
  unfold unlinkIfExists
  split
  · intro h
    have h2 := (List.mem_filter.mp h).2
    simp at h2
  · assumption

theorem not_mem_unlinkIfExists {fs : List String} {p q : String} (h : p ∉ fs) :
    p ∉ unlinkIfExists fs q := fun hm => h (mem_of_mem_unlinkIfExists hm)

theorem muxErrorCleanup_clean (downloadId : String) (fs : List String) :
    videoTempPath downloadId ∉ muxErrorCleanup downloadId fs ∧
    audioTempPath downloadId ∉ muxErrorCleanup downloadId fs ∧
    finalPath downloadId "mp4" ∉ muxErrorCleanup downloadId fs ∧
    finalPath downloadId "webm" ∉ muxErrorCleanup downloadId fs := by
  unfold muxErrorCleanup
  refine ⟨?_, ?_, ?_, not_mem_unlinkIfExists_self _ _⟩
  · exact not_mem_unlinkIfExists (not_mem_unlinkIfExists
      (not_mem_unlinkIfExists (not_mem_unlinkIfExists_self _ _)))
  · exact not_mem_unlinkIfExists (not_mem_unlinkIfExists (not_mem_unlinkIfExists_self _ _))
  · exact not_mem_unlinkIfExists (not_mem_unlinkIfExists_self _ _)

/-- Downloaded bytes reported by a mux progress event. -/
def eventDownloaded : MuxEvent → Nat
  | .videoChunk d _ => d
  | .audioChunk d _ => d

/-- Total bytes reported by a mux progress event. -/
def eventTotal : MuxEvent → Nat
  | .videoChunk _ t => t
  | .audioChunk _ t => t

/-- Well-formed fetch events: a positive total and no more downloaded than
the total. -/
abbrev validChunks (events : List (Nat × Nat)) : Prop :=
  ∀ e ∈ events, 0 < e.2 ∧ e.1 ≤ e.2

/-- Well-formed mux progress events. -/
abbrev validMuxEvents (events : List MuxEvent) : Prop :=
  ∀ e ∈ events, 0 < eventTotal e ∧ eventDownloaded e ≤ eventTotal e

/-- Well-formed external-tool percentages, within 0 and 100. -/
abbrev validPercents (percents : List ℚ) : Prop :=
  ∀ p ∈ percents, 0 ≤ p ∧ p ≤ 100

/-- Well-formed fetch outcome. -/
def validFetch : FetchOutcome → Prop
  | .earlyFail => True
  | .fetchError events => validChunks events
  | .fetchDone events => validChunks events

/-- Well-formed video-branch fetch outcome. -/
def validVideoFetch : VideoFetchOutcome → Prop
  | .earlyFail => True
  | .readError events => validChunks events
  | .writeError events => validChunks events
  | .streamEnd events => validChunks events

/-- Well-formed conversion outcome. -/
def validConv : ConvOutcome → Prop
  | .convFail percents => validPercents percents
  | .convDone percents _ => validPercents percents

/-- Well-formed mux outcome. -/
def validMuxOutcome : MuxOutcome → Prop
  | .formatNotFound => True
  | .fetchFail events _ _ => validMuxEvents events
  | .muxFail events percents _ => validMuxEvents events ∧ validPercents percents
  | .muxDone events percents _ => validMuxEvents events ∧ validPercents percents

/-- Progress field of a store write stays within 0 and 100 when present. -/
def progBound (u : PartialDownload) : Prop :=
  ∀ k, u.progress = some k → 0 ≤ k ∧ k ≤ 100

/-- Store write that does not mark the job completed. -/
def notCompleting (u : PartialDownload) : Prop := u.status ≠ some "completed"

/-- Job record invariant of claim C2 as amended: progress within 0 and 100,
and a completed job has progress 100. -/
def jobOk (j : Download) : Prop :=
  0 ≤ j.progress ∧ j.progress ≤ 100 ∧ (j.status = "completed" → j.progress = 100)

/-- Strengthened invariant holding before the terminal write. -/
def jobOkStrict (j : Download) : Prop :=
  0 ≤ j.progress ∧ j.progress ≤ 100 ∧ j.status ≠ "completed"

theorem jobOk_of_strict {j : Download} (h : jobOkStrict j) : jobOk j :=
  ⟨h.1, h.2.1, fun hc => absurd hc h.2.2⟩

theorem applyUpdates_strict {j : Download} {u : PartialDownload} {now : Nat}
    (hj : jobOkStrict j) (hb : progBound u) (hn : notCompleting u) :
    jobOkStrict (applyUpdates j u now) := by
  obtain ⟨h1, h2, h3⟩ := hj
  refine ⟨?_, ?_, ?_⟩
  · cases hu : u.progress with
    | none => simpa [applyUpdates, hu] using h1
    | some k => simpa [applyUpdates, hu] using (hb k hu).1
  · cases hu : u.progress with
    | none => simpa [applyUpdates, hu] using h2
    | some k => simpa [applyUpdates, hu] using (hb k hu).2
  · cases hu : u.status with
    | none => simpa [applyUpdates, hu] using h3
    | some s =>
      simp only [applyUpdates, hu, Option.getD_some]
      intro hs
      exact hn (by rw [hu, hs])

theorem init_mem_jobStates (init : Download) :
    ∀ us : List PartialDownload, init ∈ jobStates init us
  | [] => by simp [jobStates]
  | _ :: _ => by simp [jobStates]

theorem mem_jobStates_append :
    ∀ (us vs : List PartialDownload) (init j : Download),
      j ∈ jobStates init (us ++ vs) ↔
        j ∈ jobStates init us ∨ j ∈ jobStates (applyAll init us) vs
  | [], vs, init, j => by
    simp only [List.nil_append, jobStates, applyAll, List.foldl_nil, List.mem_singleton]
    constructor
    · intro h
      exact Or.inr h
    · rintro (rfl | h)
      · exact init_mem_jobStates j vs
      · exact h
  | u :: us, vs, init, j => by
    have IH := mem_jobStates_append us vs (applyUpdates init u 0) j
    have hall : applyAll init (u :: us) = applyAll (applyUpdates init u 0) us := rfl
    simp only [List.cons_append, jobStates, List.mem_cons, hall, List.append_eq]
    rw [IH]
    tauto

theorem bodyInv : ∀ (us : List PartialDownload) (init : Download),
    jobOkStrict init →
    (∀ u ∈ us, progBound u ∧ notCompleting u) →
    (∀ j ∈ jobStates init us, jobOk j) ∧ jobOkStrict (applyAll init us)
  | [], init, hi, _ => by
    refine ⟨?_, hi⟩
    intro j hj
    simp only [jobStates, List.mem_singleton] at hj
    subst hj
    exact jobOk_of_strict hi
  | u :: us, init, hi, hb => by
    have hu := hb u (List.mem_cons_self u us)
    have hstep := @applyUpdates_strict init u 0 hi hu.1 hu.2
    have IH := bodyInv us (applyUpdates init u 0) hstep
      (fun v hv => hb v (List.mem_cons_of_mem u hv))
    constructor
    · intro j hj
      simp only [jobStates, List.mem_cons] at hj
      rcases hj with rfl | hj2
      · exact jobOk_of_strict hi
      · exact IH.1 j hj2
    · exact IH.2

theorem applyUpdates_failed_ok (j : Download) (now : Nat) :
    jobOk (applyUpdates j failedUpdate now) := by
  refine ⟨?_, ?_, ?_⟩ <;> simp [applyUpdates, failedUpdate]

theorem applyUpdates_completed_ok (j : Download) (fp : String) (n : Nat) (now : Nat) :
    jobOk (applyUpdates j (completedUpdate fp n) now) := by
  refine ⟨?_, ?_, ?_⟩ <;> simp [applyUpdates, completedUpdate]

theorem pathStatesOk {init : Download} {body : List PartialDownload} {t : PartialDownload}
    (hi : jobOkStrict init)
    (hb : ∀ u ∈ body, progBound u ∧ notCompleting u)
    (ht : t = failedUpdate ∨ ∃ fp n, t = completedUpdate fp n) :
    ∀ j ∈ jobStates init (body ++ [t]), jobOk j := by
  intro j hj
  rcases (mem_jobStates_append body [t] init j).mp hj with h | h
  · exact (bodyInv body init hi hb).1 j h
  · simp only [jobStates, List.mem_cons, List.mem_singleton, List.not_mem_nil, or_false] at h
    rcases h with rfl | rfl
    · exact jobOk_of_strict (bodyInv body init hi hb).2
    · rcases ht with rfl | ⟨fp, n, rfl⟩
      · exact applyUpdates_failed_ok _ _
      · exact applyUpdates_completed_ok _ fp n _

theorem natCast_le_hundred {n m : Nat} (h : n ≤ m) (hm : m ≤ 100) : (n : Int) ≤ 100 := by
  exact_mod_cast le_trans h hm

theorem downloadingUpdate_bound : progBound downloadingUpdate ∧ notCompleting downloadingUpdate := by
  constructor
  · intro k hk
    simp [downloadingUpdate] at hk
  · simp [notCompleting, downloadingUpdate]

theorem audioChunkUpdate_bound (isMp3 : Bool) (e : Nat × Nat) (ht : 0 < e.2) (hd : e.1 ≤ e.2) :
    progBound (audioChunkUpdate isMp3 e) ∧ notCompleting (audioChunkUpdate isMp3 e) := by
  constructor
  · intro k hk
    simp only [audioChunkUpdate, Option.some.injEq] at hk
    subst hk
    cases isMp3 with
    | true =>
      have h70 : jsRoundRatio (e.1 * 70) e.2 ≤ 70 := jsRoundRatio_le ht (by omega)
      simp only [if_pos rfl]
      exact ⟨Int.natCast_nonneg _, natCast_le_hundred h70 (by omega)⟩
    | false =>
      have h100 : jsRoundRatio (e.1 * 100) e.2 ≤ 100 := jsRoundRatio_le ht (by omega)
      rw [if_neg Bool.false_ne_true]
      exact ⟨Int.natCast_nonneg _, natCast_le_hundred h100 (by omega)⟩
  · simp [notCompleting, audioChunkUpdate]

theorem videoChunkUpdate_bound (e : Nat × Nat) (ht : 0 < e.2) (hd : e.1 ≤ e.2) :
    progBound (videoChunkUpdate e) ∧ notCompleting (videoChunkUpdate e) := by
  constructor
  · intro k hk
    simp only [videoChunkUpdate, Option.some.injEq] at hk
    subst hk
    have h100 : jsRoundRatio (e.1 * 100) e.2 ≤ 100 := jsRoundRatio_le ht (by omega)
    exact ⟨Int.natCast_nonneg _, natCast_le_hundred h100 (by omega)⟩
  · simp [notCompleting, videoChunkUpdate]

theorem mp3ConvUpdate_bound (p : ℚ) (h0 : 0 ≤ p) (h1 : p ≤ 100) :
    progBound (mp3ConvUpdate p) ∧ notCompleting (mp3ConvUpdate p) := by
  constructor
  · intro k hk
    simp only [mp3ConvUpdate, Option.some.injEq] at hk
    subst hk
    constructor
    · refine round_nonneg_of_nonneg ?_
      have := mul_nonneg h0 (by norm_num : (0 : ℚ) ≤ 25 / 100)
      linarith
    · refine round_le_hundred ?_
      have := mul_le_mul_of_nonneg_right h1 (by norm_num : (0 : ℚ) ≤ 25 / 100)
      linarith
  · simp [notCompleting, mp3ConvUpdate]

theorem muxConvUpdate_bound (p : ℚ) (h0 : 0 ≤ p) (h1 : p ≤ 100) :
    progBound (muxConvUpdate p) ∧ notCompleting (muxConvUpdate p) := by
  constructor
  · intro k hk
    simp only [muxConvUpdate, Option.some.injEq] at hk
    subst hk
    constructor
    · refine round_nonneg_of_nonneg ?_
      have := mul_nonneg h0 (by norm_num : (0 : ℚ) ≤ 18 / 100)
      linarith
    · refine round_le_hundred ?_
      have := mul_le_mul_of_nonneg_right h1 (by norm_num : (0 : ℚ) ≤ 18 / 100)
      linarith
  · simp [notCompleting, muxConvUpdate]

theorem seventyFiveUpdate_bound :
    progBound ({ progress := some 75 } : PartialDownload) ∧
    notCompleting ({ progress := some 75 } : PartialDownload) := by
  constructor
  · intro k hk
    simp only [Option.some.injEq] at hk
    omega
  · simp [notCompleting]

theorem eightyOneUpdate_bound :
    progBound ({ progress := some 81 } : PartialDownload) ∧
    notCompleting ({ progress := some 81 } : PartialDownload) := by
  constructor
  · intro k hk
    simp only [Option.some.injEq] at hk
    omega
  · simp [notCompleting]

theorem muxEventUpdates_bound :
    ∀ (events : List MuxEvent) (st : MuxProgressState),
      validMuxEvents events →
      st.videoBytes ≤ st.totalVideoBytes →
      st.audioBytes ≤ st.totalAudioBytes →
      ∀ u ∈ muxEventUpdates st events, progBound u ∧ notCompleting u
  | [], _, _, _, _ => by
    intro u hu
    simp [muxEventUpdates] at hu
  | e :: rest, st, hv, hvid, haud => by
    have he := hv e (List.mem_cons_self e rest)
    have hrest : validMuxEvents rest := fun x hx => hv x (List.mem_cons_of_mem e hx)
    have hvid2 : (stepMuxState st e).videoBytes ≤ (stepMuxState st e).totalVideoBytes := by
      cases e with
      | videoChunk d t => simpa [stepMuxState] using he.2
      | audioChunk d t => simpa [stepMuxState] using hvid
    have haud2 : (stepMuxState st e).audioBytes ≤ (stepMuxState st e).totalAudioBytes := by
      cases e with
      | videoChunk d t => simpa [stepMuxState] using haud
      | audioChunk d t => simpa [stepMuxState] using he.2
    intro u hu
    simp only [muxEventUpdates] at hu
    cases hup : updateProgress (stepMuxState st e) with
    | none =>
      rw [hup] at hu
      exact muxEventUpdates_bound rest (stepMuxState st e) hrest hvid2 haud2 u hu
    | some u0 =>
      rw [hup] at hu
      rcases List.mem_cons.mp hu with rfl | hu2
      · unfold updateProgress at hup
        split at hup
        · rename_i hcond
          simp only [Bool.and_eq_true, decide_eq_true_eq] at hcond
          simp only [Option.some.injEq] at hup
          subst hup
          constructor
          · intro k hk
            simp only [Option.some.injEq] at hk
            subst hk
            set st2 := stepMuxState st e
            have hpos : 0 < st2.totalVideoBytes * st2.totalAudioBytes :=
              Nat.mul_pos hcond.1 hcond.2
            have hle : 40 * (st2.videoBytes * st2.totalAudioBytes +
                st2.audioBytes * st2.totalVideoBytes) ≤
                80 * (st2.totalVideoBytes * st2.totalAudioBytes) := by
              have m1 : st2.videoBytes * st2.totalAudioBytes ≤
                  st2.totalVideoBytes * st2.totalAudioBytes :=
                Nat.mul_le_mul_right _ hvid2
              have m2 : st2.audioBytes * st2.totalVideoBytes ≤
                  st2.totalAudioBytes * st2.totalVideoBytes :=
                Nat.mul_le_mul_right _ haud2
              have m3 : st2.totalAudioBytes * st2.totalVideoBytes =
                  st2.totalVideoBytes * st2.totalAudioBytes := Nat.mul_comm _ _
              omega
            have h80 := jsRoundRatio_le hpos hle
            exact ⟨Int.natCast_nonneg _, natCast_le_hundred h80 (by omega)⟩
          · simp [notCompleting]
        · simp at hup
      · exact muxEventUpdates_bound rest (stepMuxState st e) hrest hvid2 haud2 u hu2

/-- Values of the last video progress event of a trace, when any. -/
def lastVideoChunk : List MuxEvent → Option (Nat × Nat)
  | [] => none
  | .videoChunk d t :: rest => some ((lastVideoChunk rest).getD (d, t))
  | .audioChunk _ _ :: rest => lastVideoChunk rest

/-- Values of the last audio progress event of a trace, when any. -/
def lastAudioChunk : List MuxEvent → Option (Nat × Nat)
  | [] => none
  | .audioChunk d t :: rest => some ((lastAudioChunk rest).getD (d, t))
  | .videoChunk _ _ :: rest => lastAudioChunk rest

theorem foldl_stepMuxState_video :
    ∀ (events : List MuxEvent) (st : MuxProgressState),
      ((events.foldl stepMuxState st).videoBytes,
        (events.foldl stepMuxState st).totalVideoBytes) =
        (lastVideoChunk events).getD (st.videoBytes, st.totalVideoBytes)
  | [], st => rfl
  | .videoChunk d t :: rest, st => by
    simp only [List.foldl, lastVideoChunk]
    rw [foldl_stepMuxState_video rest]
    cases lastVideoChunk rest <;> simp [stepMuxState]
  | .audioChunk d t :: rest, st => by
    simp only [List.foldl, lastVideoChunk]
    rw [foldl_stepMuxState_video rest]
    simp [stepMuxState]

theorem foldl_stepMuxState_audio :
    ∀ (events : List MuxEvent) (st : MuxProgressState),
      ((events.foldl stepMuxState st).audioBytes,
        (events.foldl stepMuxState st).totalAudioBytes) =
        (lastAudioChunk events).getD (st.audioBytes, st.totalAudioBytes)
  | [], st => rfl
  | .audioChunk d t :: rest, st => by
    simp only [List.foldl, lastAudioChunk]
    rw [foldl_stepMuxState_audio rest]
    cases lastAudioChunk rest <;> simp [stepMuxState]
  | .videoChunk d t :: rest, st => by
    simp only [List.foldl, lastAudioChunk]
    rw [foldl_stepMuxState_audio rest]
    simp [stepMuxState]

theorem lastVideoChunk_mem :
    ∀ {events : List MuxEvent} {d t : Nat},
      lastVideoChunk events = some (d, t) → MuxEvent.videoChunk d t ∈ events
  | [], d, t => by intro h; simp [lastVideoChunk] at h
  | .videoChunk d0 t0 :: rest, d, t => by
    intro h
    simp only [lastVideoChunk, Option.some.injEq] at h
    cases hr : lastVideoChunk rest with
    | none =>
      rw [hr] at h
      simp only [Option.getD_none, Prod.mk.injEq] at h
      obtain ⟨rfl, rfl⟩ := h
      exact List.mem_cons_self _ _
    | some p =>
      rw [hr] at h
      simp only [Option.getD_some] at h
      subst h
      exact List.mem_cons_of_mem _ (lastVideoChunk_mem hr)
  | .audioChunk d0 t0 :: rest, d, t => by
    intro h
    simp only [lastVideoChunk] at h
    exact List.mem_cons_of_mem _ (lastVideoChunk_mem h)

theorem lastAudioChunk_mem :
    ∀ {events : List MuxEvent} {d t : Nat},
      lastAudioChunk events = some (d, t) → MuxEvent.audioChunk d t ∈ events
  | [], d, t => by intro h; simp [lastAudioChunk] at h
  | .audioChunk d0 t0 :: rest, d, t => by
    intro h
    simp only [lastAudioChunk, Option.some.injEq] at h
    cases hr : lastAudioChunk rest with
    | none =>
      rw [hr] at h
      simp only [Option.getD_none, Prod.mk.injEq] at h
      obtain ⟨rfl, rfl⟩ := h
      exact List.mem_cons_self _ _
    | some p =>
      rw [hr] at h
      simp only [Option.getD_some] at h
      subst h
      exact List.mem_cons_of_mem _ (lastAudioChunk_mem hr)
  | .videoChunk d0 t0 :: rest, d, t => by
    intro h
    simp only [lastAudioChunk] at h
    exact List.mem_cons_of_mem _ (lastAudioChunk_mem h)

theorem resolveQualityOption_quality {progs vids auds : List StreamDescriptor}
    {q : String} {o : FormatOption}
    (h : resolveQualityOption progs vids auds q = some o) : o.quality = q := by
  unfold resolveQualityOption at h
  repeat'
    first
    | (simp only [Option.some.injEq] at h
       rw [← h]
       rfl)
    | exact Option.noConfusion h
    | split at h

theorem applyAll_append (init : Download) (us vs : List PartialDownload) :
    applyAll init (us ++ vs) = applyAll (applyAll init us) vs := by
  simp [applyAll, List.foldl_append]

theorem applyAll_failedUpdate (init : Download) (body : List PartialDownload) :
    (applyAll init (body ++ [failedUpdate])).status = "failed" ∧
    (applyAll init (body ++ [failedUpdate])).progress = 0 := by
  rw [applyAll_append]
  constructor <;> simp [applyAll, applyUpdates, failedUpdate]

theorem applyAll_completedUpdate (init : Download) (body : List PartialDownload)
    (fp : String) (n : Nat) :
    (applyAll init (body ++ [completedUpdate fp n])).status = "completed" ∧
    (applyAll init (body ++ [completedUpdate fp n])).progress = 100 := by
  rw [applyAll_append]
  constructor <;> simp [applyAll, applyUpdates, completedUpdate]

theorem mem_labels_of_mem_quality_map {f : String → Option FormatOption}
    (hf : ∀ q o, f q = some o → o.quality = q) :
    ∀ {labels : List String} {x : String},
      x ∈ (labels.filterMap f).map (fun o => o.quality) → x ∈ labels := by
  intro labels x hx
  rcases List.mem_map.mp hx with ⟨o, ho, hq⟩
  rcases List.mem_filterMap.mp ho with ⟨q, hq2, hfq⟩
  have := hf q o hfq
  rw [← hq, this]
  exact hq2

theorem filterMap_quality_nodup {f : String → Option FormatOption}
    (hf : ∀ q o, f q = some o → o.quality = q) :
    ∀ {labels : List String}, labels.Nodup →
      ((labels.filterMap f).map (fun o => o.quality)).Nodup := by
  intro labels
  induction labels with
  | nil => intro _; simp
  | cons q rest ih =>
    intro hnd
    have hnd2 := (List.nodup_cons.mp hnd).2
    have hq : q ∉ rest := (List.nodup_cons.mp hnd).1
    rw [List.filterMap_cons]
    cases hfq : f q with
    | none => exact ih hnd2
    | some o =>
      rw [List.map_cons]
      refine List.nodup_cons.mpr ⟨?_, ih hnd2⟩
      intro hmem
      rw [hf q o hfq] at hmem
      exact hq (mem_labels_of_mem_quality_map hf hmem)

theorem muxOutputContainer_mem (hint : String) (vf af : StreamDescriptor) :
    muxOutputContainer hint vf af = "mp4" ∨ muxOutputContainer hint vf af = "webm" := by
  unfold muxOutputContainer
  split_ifs <;> first | exact Or.inl rfl | exact Or.inr rfl

theorem forall_mem_singleton_update {P : PartialDownload → Prop} {u : PartialDownload}
    (h : P u) : ∀ v ∈ [u], P v := by
  intro v hv
  simp only [List.mem_singleton] at hv
  subst hv
  exact h

/-- Video-only 1080p stream in container mp4 with an AVC codec, as in the
fallback scenario of claim C1. -/
def c1VideoMp4 : StreamDescriptor :=
  { itag := "137", container := some "mp4", videoCodec := some "avc1.640028",
    qualityLabel := some "1080p", hasVideo := true, hasAudio := false,
    contentLength := some 52428800 }

/-- Video-only 1080p stream in container webm with codec vp9, present at
the same quality as the mp4 stream. -/
def c1VideoWebm : StreamDescriptor :=
  { itag := "248", container := some "webm", videoCodec := some "vp9",
    qualityLabel := some "1080p", hasVideo := true, hasAudio := false,
    contentLength := some 47185920 }

/-- The only audio-only stream of the scenario: opus in webm, so no
AAC-family audio exists. -/
def c1AudioOpus : StreamDescriptor :=
  { itag := "251", container := some "webm", audioCodec := some "opus",
    hasVideo := false, hasAudio := true, audioBitrate := some 160,
    contentLength := some 3145728 }

/-- Descriptor list of the claim C1 fallback scenario. -/
def c1Descriptors : List StreamDescriptor := [c1VideoMp4, c1VideoWebm, c1AudioOpus]

/-- Claim C1: in the webm-fallback branch (mp4/AVC video selected, no
AAC-family audio, but a webm video-only stream exists at the same quality)
the specification pairs the webm video-only stream with the opus audio.
The code finds that webm stream but still emits the original mp4 video
stream: on the scenario descriptors the single emitted option is a mux
option with output container webm whose video itag is 137 (the mp4/AVC
stream), not 248 (the webm stream present at the same quality). -/
theorem c1_webm_fallback_keeps_mp4_video_stream :
    (processVideoFormats c1Descriptors).map
        (fun o => (o.downloadMethod, o.container, o.videoItag, o.audioItag)) =
      [("mux", "webm", some "137", some "251")] ∧
    c1VideoWebm ∈ c1Descriptors ∧
    c1VideoWebm.qualityLabel = some "1080p" ∧
    c1VideoWebm.container = some "webm" ∧
    c1VideoWebm.hasVideo = true ∧ c1VideoWebm.hasAudio = false ∧
    c1VideoWebm.itag = "248" ∧
    (some "137" : Option String) ≠ some "248" := by
  refine ⟨by decide, by decide, rfl, rfl, rfl, rfl, rfl, by decide⟩

/-- Claim C3: the mux output container is derived from the two chosen
streams exactly as the specification rule states, and is independent of the
client-supplied format hint. -/
theorem c3_output_container_rederivation :
    ∀ (hint hint2 : String) (videoFormat audioFormat : StreamDescriptor),
      muxOutputContainer hint videoFormat audioFormat =
        specOutputContainer videoFormat audioFormat ∧
      muxOutputContainer hint videoFormat audioFormat =
        muxOutputContainer hint2 videoFormat audioFormat :=
  fun _ _ _ _ => ⟨rfl, rfl⟩

/-- Claim C8: for every descriptor list, the video menu contains at most
one option per quality label. -/
theorem c8_video_menu_unique_quality (formats : List StreamDescriptor) :
    ((processVideoFormats formats).map (fun o => o.quality)).Nodup := by
  unfold processVideoFormats
  exact filterMap_quality_nodup (fun q o h => resolveQualityOption_quality h)
    (allVideoQualities_nodup _ _)

/-- Claim C7: audio stream selection of the progressive path tries the
exact requested itag among audio-only streams; failing that it takes an
audio-only stream of maximal bitrate; the selection comes up empty exactly
when no audio-only stream exists at all. -/
theorem c7_audio_selection_fallback_chain :
    ∀ (formats : List StreamDescriptor) (itag : String),
      (findAudioFormat formats itag = none ↔
        ∀ f ∈ formats, ¬(f.hasAudio = true ∧ f.hasVideo = false)) ∧
      (∀ f, formats.find? (fun g => g.itag == itag && g.hasAudio && !g.hasVideo) = some f →
        findAudioFormat formats itag = some f) ∧
      (formats.find? (fun g => g.itag == itag && g.hasAudio && !g.hasVideo) = none →
        ∀ f, findAudioFormat formats itag = some f →
          f ∈ formats ∧ f.hasAudio = true ∧ f.hasVideo = false ∧
          ∀ g ∈ formats, g.hasAudio = true → g.hasVideo = false →
            g.audioBitrate.getD 0 ≤ f.audioBitrate.getD 0) := by
  intro formats itag
  refine ⟨?_, ?_, ?_⟩
  · constructor
    · intro h f hf hand
      unfold findAudioFormat at h
      split at h
      · exact Option.noConfusion h
      · split at h
        · exact Option.noConfusion h
        · rename_i hhb
          have hfil : formats.filter (fun f => f.hasAudio && !f.hasVideo) = [] :=
            highestBitrate_eq_none.mp hhb
          have : f ∈ formats.filter (fun f => f.hasAudio && !f.hasVideo) :=
            List.mem_filter.mpr ⟨hf, by simp [hand.1, hand.2]⟩
          rw [hfil] at this
          exact (List.not_mem_nil f) this
    · intro hnone
      unfold findAudioFormat
      have hfil : formats.filter (fun f => f.hasAudio && !f.hasVideo) = [] := by
        rw [List.filter_eq_nil_iff]
        intro f hf
        simp only [Bool.and_eq_true, Bool.not_eq_eq_eq_not, Bool.not_true, not_and] 
        intro ha
        by_contra hv
        exact hnone f hf ⟨ha, by revert hv; cases f.hasVideo <;> simp⟩
      have hfind : formats.find? (fun g => g.itag == itag && g.hasAudio && !g.hasVideo) = none := by
        rw [List.find?_eq_none]
        intro f hf
        intro hp
        simp only [Bool.and_eq_true, beq_iff_eq] at hp
        exact hnone f hf ⟨hp.1.2, by revert hp; cases f.hasVideo <;> simp⟩
      have hfind2 : formats.find? (fun f => f.hasAudio && !f.hasVideo) = none := by
        rw [List.find?_eq_none]
        intro f hf hp
        simp only [Bool.and_eq_true] at hp
        exact hnone f hf ⟨hp.1, by revert hp; cases f.hasVideo <;> simp⟩
      rw [hfind, hfil, hfind2]
      simp [highestBitrate]
  · intro f hf
    unfold findAudioFormat
    rw [hf]
  · intro hnone f hsel
    unfold findAudioFormat at hsel
    rw [hnone] at hsel
    cases hhb : highestBitrate (formats.filter (fun f => f.hasAudio && !f.hasVideo)) with
    | some m =>
      rw [hhb] at hsel
      simp only [Option.some.injEq] at hsel
      subst hsel
      have hmem := highestBitrate_mem hhb
      have hmem2 := List.mem_filter.mp hmem
      have hp := hmem2.2
      simp only [Bool.and_eq_true] at hp
      refine ⟨hmem2.1, hp.1, by simpa using hp.2, ?_⟩
      intro g hg ha hv
      exact highestBitrate_max hhb g
        (List.mem_filter.mpr ⟨hg, by simp [ha, hv]⟩)
    | none =>
      rw [hhb] at hsel
      have hfil := highestBitrate_eq_none.mp hhb
      have : formats.find? (fun f => f.hasAudio && !f.hasVideo) = none := by
        rw [List.find?_eq_none]
        intro x hx hp
        have : x ∈ formats.filter (fun f => f.hasAudio && !f.hasVideo) :=
          List.mem_filter.mpr ⟨hx, hp⟩
        rw [hfil] at this
        exact (List.not_mem_nil x) this
      rw [this] at hsel
      exact Option.noConfusion hsel

/-- Audio-only opus stream used in the claim C7 witness scenario. -/
def c7Audio : StreamDescriptor :=
  { itag := "251", container := some "webm", audioCodec := some "opus",
    hasVideo := false, hasAudio := true, audioBitrate := some 160 }

/-- Video-only stream used in the claim C7 witness scenario. -/
def c7Video : StreamDescriptor :=
  { itag := "137", container := some "mp4", hasVideo := true, hasAudio := false }

/-- Witness for claim C7: with no audio-only stream of itag 140, selection
falls back to the highest-bitrate audio-only stream. -/
theorem c7_witness :
    ([c7Video, c7Audio].find? (fun g => g.itag == "140" && g.hasAudio && !g.hasVideo)
        = none) ∧
    (c7Audio ∈ [c7Video, c7Audio] ∧ c7Audio.hasAudio = true ∧ c7Audio.hasVideo = false ∧
      ∀ g ∈ [c7Video, c7Audio], g.hasAudio = true → g.hasVideo = false →
        g.audioBitrate.getD 0 ≤ c7Audio.audioBitrate.getD 0) :=
  ⟨by decide,
    (c7_audio_selection_fallback_chain [c7Video, c7Audio] "140").2.2 (by decide)
      c7Audio (by decide)⟩

/-- Stored job used in the claim C9 counterexample. -/
def c9Base : Download := { id := "job-1" }

/-- Store holding the claim C9 job under its id. -/
def c9Store : MemStorage := ⟨[("job-1", c9Base)]⟩

/-- Update map carrying an id field. -/
def c9EvilUpdate : PartialDownload := { id := some "evil" }

/-- Claim C9 (counterexample): updateDownload spreads the update map over
the record, so an update map that contains an id field replaces the stored
id: updating job-1 with an id of evil both returns and stores a record
whose id is evil, not the id generated at creation. -/
theorem c9_counterexample :
    ((updateDownload c9Store "job-1" c9EvilUpdate 5).1.map (fun d => d.id)
        = some "evil") ∧
    ((getKey (updateDownload c9Store "job-1" c9EvilUpdate 5).2.downloads "job-1").map
        (fun d => d.id) = some "evil") ∧
    c9Base.id = "job-1" ∧ ("evil" : String) ≠ "job-1" := by
  refine ⟨by decide, by decide, rfl, by decide⟩

/-- Sequence of updateDownload calls against one key. -/
def applyUpdateSeq (s : MemStorage) (id : String) :
    List (PartialDownload × Nat) → MemStorage
  | [] => s
  | (u, t) :: rest => applyUpdateSeq (updateDownload s id u t).2 id rest

theorem updateSeq_id_invariant :
    ∀ (updates : List (PartialDownload × Nat)) (s : MemStorage) (key newId : String),
      (∀ u ∈ updates, u.1.id = none) →
      (∀ d, getKey s.downloads key = some d → d.id = newId) →
      ∀ d, getKey (applyUpdateSeq s key updates).downloads key = some d → d.id = newId
  | [], _, _, _, _, hinv, d, hd => hinv d hd
  | (u, t) :: rest, s, key, newId, hu, hinv, d, hd => by
    refine updateSeq_id_invariant rest _ key newId
      (fun v hv => hu v (List.mem_cons_of_mem _ hv)) ?_ d hd
    intro e he
    unfold updateDownload at he
    cases hk : getKey s.downloads key with
    | none =>
      rw [hk] at he
      exact hinv e he
    | some ex =>
      rw [hk] at he
      dsimp at he
      rw [getKey_setKey_self] at he
      simp only [Option.some.injEq] at he
      subst he
      have hid : u.id = none := hu (u, t) (List.mem_cons_self _ _)
      have hexid : ex.id = newId := hinv ex hk
      simp [applyUpdates, hid, hexid]

/-- Claim C9 (amended): as long as no update map sets the id field, the
record stored under the created key keeps the id generated at creation. -/
theorem c9_amended_id_stable :
    ∀ (s : MemStorage) (ins : InsertDownload) (newId : String) (now : Nat)
      (updates : List (PartialDownload × Nat)),
      (∀ u ∈ updates, u.1.id = none) →
      ∀ d, getKey (applyUpdateSeq (createDownload s ins newId now).2 newId
          updates).downloads newId = some d → d.id = newId := by
  intro s ins newId now updates hu d hd
  refine updateSeq_id_invariant updates _ newId newId hu ?_ d hd
  intro e he
  unfold createDownload at he
  dsimp at he
  rw [getKey_setKey_self] at he
  simp only [Option.some.injEq] at he
  subst he
  rfl

/-- Witness for the amended claim C9, at a concrete creation and one
id-free update. -/
theorem c9_amended_id_stable_witness :
    getKey (applyUpdateSeq (createDownload ⟨[]⟩ {} "a" 0).2 "a"
        [({ progress := some 50 }, 1)]).downloads "a" =
      some (applyUpdates (createDownload ⟨[]⟩ {} "a" 0).1 { progress := some 50 } 1) ∧
    (applyUpdates (createDownload ⟨[]⟩ {} "a" 0).1 { progress := some 50 } 1).id = "a" :=
  ⟨by decide,
    c9_amended_id_stable ⟨[]⟩ {} "a" 0 [({ progress := some 50 }, 1)] (by decide) _
      (by decide)⟩

/-- Claim C10: frame condition of updateDownload. An absent id returns
absent and leaves the store untouched; otherwise the merged record is
returned and stored under the same key, other keys are untouched,
updatedAt is set to the update time, and every field whose key is absent
from the update map keeps its stored value. -/
theorem c10_updateDownload_frame :
    ∀ (s : MemStorage) (id : String) (updates : PartialDownload) (now : Nat),
      (getKey s.downloads id = none → updateDownload s id updates now = (none, s)) ∧
      (∀ existing, getKey s.downloads id = some existing →
        (updateDownload s id updates now).1 = some (applyUpdates existing updates now) ∧
        getKey (updateDownload s id updates now).2.downloads id =
          some (applyUpdates existing updates now) ∧
        (∀ k, k ≠ id → getKey (updateDownload s id updates now).2.downloads k =
          getKey s.downloads k) ∧
        (applyUpdates existing updates now).updatedAt = now ∧
        (updates.id = none → (applyUpdates existing updates now).id = existing.id) ∧
        (updates.videoId = none →
          (applyUpdates existing updates now).videoId = existing.videoId) ∧
        (updates.title = none →
          (applyUpdates existing updates now).title = existing.title) ∧
        (updates.thumbnail = none →
          (applyUpdates existing updates now).thumbnail = existing.thumbnail) ∧
        (updates.duration = none →
          (applyUpdates existing updates now).duration = existing.duration) ∧
        (updates.views = none →
          (applyUpdates existing updates now).views = existing.views) ∧
        (updates.author = none →
          (applyUpdates existing updates now).author = existing.author) ∧
        (updates.quality = none →
          (applyUpdates existing updates now).quality = existing.quality) ∧
        (updates.format = none →
          (applyUpdates existing updates now).format = existing.format) ∧
        (updates.status = none →
          (applyUpdates existing updates now).status = existing.status) ∧
        (updates.progress = none →
          (applyUpdates existing updates now).progress = existing.progress) ∧
        (updates.filePath = none →
          (applyUpdates existing updates now).filePath = existing.filePath) ∧
        (updates.fileSize = none →
          (applyUpdates existing updates now).fileSize = existing.fileSize) ∧
        (updates.itag = none →
          (applyUpdates existing updates now).itag = existing.itag) ∧
        (updates.downloadMethod = none →
          (applyUpdates existing updates now).downloadMethod = existing.downloadMethod) ∧
        (updates.videoItag = none →
          (applyUpdates existing updates now).videoItag = existing.videoItag) ∧
        (updates.audioItag = none →
          (applyUpdates existing updates now).audioItag = existing.audioItag) ∧
        (updates.createdAt = none →
          (applyUpdates existing updates now).createdAt = existing.createdAt)) := by
  intro s id updates now
  constructor
  · intro h
    unfold updateDownload
    rw [h]
  · intro existing h
    unfold updateDownload
    rw [h]
    dsimp
    refine ⟨rfl, getKey_setKey_self _ _ _, fun k hk => getKey_setKey_ne _ _ _ _ hk, rfl,
      ?_, ?_, ?_, ?_, ?_, ?_, ?_, ?_, ?_, ?_, ?_, ?_, ?_, ?_, ?_, ?_, ?_, ?_⟩
    all_goals intro hf
    all_goals simp [applyUpdates, hf]

/-- Job stored in the claim C10 witness store. -/
def c10Job : Download := { id := "a", title := "T", progress := 5 }

/-- Second job of the claim C10 witness store, under another key. -/
def c10Other : Download := { id := "b" }

/-- Witness store of claim C10 with two keys. -/
def c10Store : MemStorage := ⟨[("a", c10Job), ("b", c10Other)]⟩

/-- Witness update of claim C10, leaving title and id out of the map. -/
def c10Upd : PartialDownload := { progress := some 42, status := some "downloading" }

/-- Witness for claim C10 at a concrete store, key and update map. -/
theorem c10_updateDownload_frame_witness :
    (updateDownload c10Store "zz" c10Upd 7 = (none, c10Store)) ∧
    (updateDownload c10Store "a" c10Upd 7).1 = some (applyUpdates c10Job c10Upd 7) ∧
    getKey (updateDownload c10Store "a" c10Upd 7).2.downloads "a" =
      some (applyUpdates c10Job c10Upd 7) ∧
    getKey (updateDownload c10Store "a" c10Upd 7).2.downloads "b" =
      getKey c10Store.downloads "b" ∧
    (applyUpdates c10Job c10Upd 7).updatedAt = 7 ∧
    (applyUpdates c10Job c10Upd 7).id = c10Job.id ∧
    (applyUpdates c10Job c10Upd 7).title = c10Job.title := by
  have h := c10_updateDownload_frame c10Store "a" c10Upd 7
  have h2 := h.2 c10Job (by decide)
  have hz := (c10_updateDownload_frame c10Store "zz" c10Upd 7).1 (by decide)
  exact ⟨hz, h2.1, h2.2.1, h2.2.2.1 "b" (by decide), h2.2.2.2.1,
    h2.2.2.2.2.1 (by decide), h2.2.2.2.2.2.2.1 (by decide)⟩

theorem map_audioChunk_bound (isMp3 : Bool) {events : List (Nat × Nat)}
    (hv : validChunks events) :
    ∀ u ∈ events.map (audioChunkUpdate isMp3), progBound u ∧ notCompleting u := by
  intro u hu
  rcases List.mem_map.mp hu with ⟨e, he, rfl⟩
  exact audioChunkUpdate_bound isMp3 e (hv e he).1 (hv e he).2

theorem map_videoChunk_bound {events : List (Nat × Nat)} (hv : validChunks events) :
    ∀ u ∈ events.map videoChunkUpdate, progBound u ∧ notCompleting u := by
  intro u hu
  rcases List.mem_map.mp hu with ⟨e, he, rfl⟩
  exact videoChunkUpdate_bound e (hv e he).1 (hv e he).2

theorem map_mp3Conv_bound {percents : List ℚ} (hv : validPercents percents) :
    ∀ u ∈ percents.map mp3ConvUpdate, progBound u ∧ notCompleting u := by
  intro u hu
  rcases List.mem_map.mp hu with ⟨p, hp, rfl⟩
  exact mp3ConvUpdate_bound p (hv p hp).1 (hv p hp).2

theorem map_muxConv_bound {percents : List ℚ} (hv : validPercents percents) :
    ∀ u ∈ percents.map muxConvUpdate, progBound u ∧ notCompleting u := by
  intro u hu
  rcases List.mem_map.mp hu with ⟨p, hp, rfl⟩
  exact muxConvUpdate_bound p (hv p hp).1 (hv p hp).2

theorem audioUpdates_decomp (downloadId actualContainer : String) (isMp3 : Bool)
    (o : FetchOutcome) (c : ConvOutcome) :
    ∃ body t, startDownloadAudioUpdates downloadId actualContainer isMp3 o c = body ++ [t] ∧
      (validFetch o → validConv c → ∀ u ∈ body, progBound u ∧ notCompleting u) ∧
      ((progressiveFails isMp3 o c = true ∧ t = failedUpdate) ∨
       (progressiveFails isMp3 o c = false ∧ ∃ fp n, t = completedUpdate fp n)) := by
  cases o with
  | earlyFail =>
    refine ⟨[downloadingUpdate], failedUpdate, rfl, ?_, Or.inl ⟨rfl, rfl⟩⟩
    intro _ _
    exact forall_mem_singleton_update downloadingUpdate_bound
  | fetchError events =>
    refine ⟨downloadingUpdate :: events.map (audioChunkUpdate isMp3), failedUpdate,
      by simp [startDownloadAudioUpdates], ?_, Or.inl ⟨rfl, rfl⟩⟩
    intro hv _
    exact List.forall_mem_cons.mpr ⟨downloadingUpdate_bound, map_audioChunk_bound isMp3 hv⟩
  | fetchDone events =>
    cases isMp3 with
    | false =>
      refine ⟨downloadingUpdate :: events.map (audioChunkUpdate false),
        completedUpdate (finalPath downloadId actualContainer) (lastTotal events),
        by simp [startDownloadAudioUpdates], ?_,
        Or.inr ⟨by simp [progressiveFails], _, _, rfl⟩⟩
      intro hv _
      exact List.forall_mem_cons.mpr ⟨downloadingUpdate_bound, map_audioChunk_bound false hv⟩
    | true =>
      cases c with
      | convFail percents =>
        refine ⟨downloadingUpdate :: events.map (audioChunkUpdate true) ++
            ({ progress := some 75 } : PartialDownload) :: percents.map mp3ConvUpdate,
          failedUpdate,
          by simp [startDownloadAudioUpdates, List.cons_append, List.append_assoc],
          ?_, Or.inl ⟨by simp [progressiveFails], rfl⟩⟩
        intro hv hc
        refine List.forall_mem_cons.mpr ⟨downloadingUpdate_bound, ?_⟩
        refine List.forall_mem_append.mpr ⟨map_audioChunk_bound true hv, ?_⟩
        exact List.forall_mem_cons.mpr ⟨seventyFiveUpdate_bound, map_mp3Conv_bound hc⟩
      | convDone percents finalSize =>
        refine ⟨downloadingUpdate :: events.map (audioChunkUpdate true) ++
            ({ progress := some 75 } : PartialDownload) :: percents.map mp3ConvUpdate,
          completedUpdate (finalPath downloadId "mp3") finalSize,
          by simp [startDownloadAudioUpdates, List.cons_append, List.append_assoc],
          ?_, Or.inr ⟨by simp [progressiveFails], _, _, rfl⟩⟩
        intro hv hc
        refine List.forall_mem_cons.mpr ⟨downloadingUpdate_bound, ?_⟩
        refine List.forall_mem_append.mpr ⟨map_audioChunk_bound true hv, ?_⟩
        exact List.forall_mem_cons.mpr ⟨seventyFiveUpdate_bound, map_mp3Conv_bound hc⟩

theorem videoUpdates_decomp (downloadId format : String) (o : VideoFetchOutcome) :
    (∃ body t, startDownloadVideoUpdates downloadId format o = body ++ [t] ∧
      (validVideoFetch o → ∀ u ∈ body, progBound u ∧ notCompleting u) ∧
      ((videoOutcomeFails o = true ∧ t = failedUpdate) ∨
       (videoOutcomeFails o = false ∧ ∃ fp n, t = completedUpdate fp n))) ∨
    (videoOutcomeCrashes o = true ∧
      ∃ body, startDownloadVideoUpdates downloadId format o = body ∧
        (validVideoFetch o → ∀ u ∈ body, progBound u ∧ notCompleting u)) := by
  cases o with
  | earlyFail =>
    refine Or.inl ⟨[downloadingUpdate], failedUpdate, rfl, ?_, Or.inl ⟨rfl, rfl⟩⟩
    intro _
    exact forall_mem_singleton_update downloadingUpdate_bound
  | readError events =>
    refine Or.inl ⟨downloadingUpdate :: events.map videoChunkUpdate, failedUpdate,
      by simp [startDownloadVideoUpdates], ?_, Or.inl ⟨rfl, rfl⟩⟩
    intro hv
    exact List.forall_mem_cons.mpr ⟨downloadingUpdate_bound, map_videoChunk_bound hv⟩
  | writeError events =>
    refine Or.inr ⟨rfl, downloadingUpdate :: events.map videoChunkUpdate, rfl, ?_⟩
    intro hv
    exact List.forall_mem_cons.mpr ⟨downloadingUpdate_bound, map_videoChunk_bound hv⟩
  | streamEnd events =>
    refine Or.inl ⟨downloadingUpdate :: events.map videoChunkUpdate,
      completedUpdate (finalPath downloadId format) (lastTotal events),
      by simp [startDownloadVideoUpdates], ?_, Or.inr ⟨rfl, _, _, rfl⟩⟩
    intro hv
    exact List.forall_mem_cons.mpr ⟨downloadingUpdate_bound, map_videoChunk_bound hv⟩

theorem muxUpdates_decomp (downloadId outputContainer : String) (o : MuxOutcome) :
    ∃ body t, startMuxDownloadUpdates downloadId outputContainer o = body ++ [t] ∧
      (validMuxOutcome o → ∀ u ∈ body, progBound u ∧ notCompleting u) ∧
      ((muxOutcomeFails o = true ∧ t = failedUpdate) ∨
       (muxOutcomeFails o = false ∧ ∃ fp n, t = completedUpdate fp n)) := by
  cases o with
  | formatNotFound =>
    refine ⟨[downloadingUpdate], failedUpdate, rfl, ?_, Or.inl ⟨rfl, rfl⟩⟩
    intro _
    exact forall_mem_singleton_update downloadingUpdate_bound
  | fetchFail events videoWritten audioWritten =>
    refine ⟨downloadingUpdate :: muxEventUpdates {} events, failedUpdate,
      by simp [startMuxDownloadUpdates], ?_, Or.inl ⟨rfl, rfl⟩⟩
    intro hv
    exact List.forall_mem_cons.mpr ⟨downloadingUpdate_bound,
      muxEventUpdates_bound events {} hv (Nat.le_refl 0) (Nat.le_refl 0)⟩
  | muxFail events percents finalWritten =>
    refine ⟨downloadingUpdate :: muxEventUpdates {} events ++
        ({ progress := some 81 } : PartialDownload) :: percents.map muxConvUpdate,
      failedUpdate,
      by simp [startMuxDownloadUpdates, List.cons_append, List.append_assoc],
      ?_, Or.inl ⟨rfl, rfl⟩⟩
    intro hv
    refine List.forall_mem_cons.mpr ⟨downloadingUpdate_bound, ?_⟩
    refine List.forall_mem_append.mpr
      ⟨muxEventUpdates_bound events {} hv.1 (Nat.le_refl 0) (Nat.le_refl 0), ?_⟩
    exact List.forall_mem_cons.mpr ⟨eightyOneUpdate_bound, map_muxConv_bound hv.2⟩
  | muxDone events percents finalSize =>
    refine ⟨downloadingUpdate :: muxEventUpdates {} events ++
        ({ progress := some 81 } : PartialDownload) :: percents.map muxConvUpdate,
      completedUpdate (finalPath downloadId outputContainer) finalSize,
      by simp [startMuxDownloadUpdates, List.cons_append, List.append_assoc],
      ?_, Or.inr ⟨rfl, _, _, rfl⟩⟩
    intro hv
    refine List.forall_mem_cons.mpr ⟨downloadingUpdate_bound, ?_⟩
    refine List.forall_mem_append.mpr
      ⟨muxEventUpdates_bound events {} hv.1 (Nat.le_refl 0) (Nat.le_refl 0), ?_⟩
    exact List.forall_mem_cons.mpr ⟨eightyOneUpdate_bound, map_muxConv_bound hv.2⟩

/-- Job as created for the orchestrators: pending with progress zero. -/
def pendingJob : Download := { id := "job-1" }

/-- Claim C2 (counterexample): the final chunk event of a progressive video
download reports downloaded equal to total, so the per-chunk write sets
progress to 100 while the status write to completed only happens at stream
end: an intermediate job state has progress 100 with status still
downloading, refuting the claimed equivalence of progress 100 and status
completed. -/
theorem c2_progress_hundred_before_completed :
    ∃ j ∈ jobStates pendingJob
        (startDownloadVideoUpdates "job-1" "mp4" (.streamEnd [(10, 10)])),
      j.progress = 100 ∧ j.status ≠ "completed" := by decide

/-- Claim C2 (amended): across every update sequence of the progressive
audio, progressive video and mux orchestrators over well-formed event
traces, every intermediate job record has integer progress within 0 and
100, and a record with status completed has progress 100. The converse
direction of the original claim fails (see the counterexample). -/
theorem c2_progress_invariant :
    (∀ (downloadId actualContainer : String) (isMp3 : Bool) (o : FetchOutcome)
        (c : ConvOutcome) (init : Download),
      validFetch o → validConv c → init.progress = 0 → init.status = "pending" →
      ∀ j ∈ jobStates init
          (startDownloadAudioUpdates downloadId actualContainer isMp3 o c),
        0 ≤ j.progress ∧ j.progress ≤ 100 ∧
          (j.status = "completed" → j.progress = 100)) ∧
    (∀ (downloadId format : String) (o : VideoFetchOutcome) (init : Download),
      validVideoFetch o → init.progress = 0 → init.status = "pending" →
      ∀ j ∈ jobStates init (startDownloadVideoUpdates downloadId format o),
        0 ≤ j.progress ∧ j.progress ≤ 100 ∧
          (j.status = "completed" → j.progress = 100)) ∧
    (∀ (downloadId outputContainer : String) (o : MuxOutcome) (init : Download),
      validMuxOutcome o → init.progress = 0 → init.status = "pending" →
      ∀ j ∈ jobStates init (startMuxDownloadUpdates downloadId outputContainer o),
        0 ≤ j.progress ∧ j.progress ≤ 100 ∧
          (j.status = "completed" → j.progress = 100)) := by
  have hstrict : ∀ init : Download, init.progress = 0 → init.status = "pending" →
      jobOkStrict init := by
    intro init h1 h2
    refine ⟨by omega, by omega, by simp [h2]⟩
  refine ⟨?_, ?_, ?_⟩
  · intro downloadId actualContainer isMp3 o c init hv hc h1 h2 j hj
    obtain ⟨body, t, heq, hbody, ht⟩ :=
      audioUpdates_decomp downloadId actualContainer isMp3 o c
    rw [heq] at hj
    refine pathStatesOk (hstrict init h1 h2) (hbody hv hc) ?_ j hj
    rcases ht with ⟨_, rfl⟩ | ⟨_, fp, n, rfl⟩
    · exact Or.inl rfl
    · exact Or.inr ⟨fp, n, rfl⟩
  · intro downloadId format o init hv h1 h2 j hj
    rcases videoUpdates_decomp downloadId format o with
      ⟨body, t, heq, hbody, ht⟩ | ⟨_, body, heq, hbody⟩
    · rw [heq] at hj
      refine pathStatesOk (hstrict init h1 h2) (hbody hv) ?_ j hj
      rcases ht with ⟨_, rfl⟩ | ⟨_, fp, n, rfl⟩
      · exact Or.inl rfl
      · exact Or.inr ⟨fp, n, rfl⟩
    · rw [heq] at hj
      exact (bodyInv body init (hstrict init h1 h2) (hbody hv)).1 j hj
  · intro downloadId outputContainer o init hv h1 h2 j hj
    obtain ⟨body, t, heq, hbody, ht⟩ := muxUpdates_decomp downloadId outputContainer o
    rw [heq] at hj
    refine pathStatesOk (hstrict init h1 h2) (hbody hv) ?_ j hj
    rcases ht with ⟨_, rfl⟩ | ⟨_, fp, n, rfl⟩
    · exact Or.inl rfl
    · exact Or.inr ⟨fp, n, rfl⟩

/-- Witness for the amended claim C2 at a concrete progressive video trace. -/
theorem c2_progress_invariant_witness :
    validChunks [(5, 10)] ∧ pendingJob.progress = 0 ∧ pendingJob.status = "pending" ∧
    ∀ j ∈ jobStates pendingJob
        (startDownloadVideoUpdates "w2" "mp4" (.streamEnd [(5, 10)])),
      0 ≤ j.progress ∧ j.progress ≤ 100 ∧ (j.status = "completed" → j.progress = 100) := by
  have hv : validChunks [(5, 10)] := by decide
  exact ⟨hv, rfl, rfl, c2_progress_invariant.2.1 "w2" "mp4" (.streamEnd [(5, 10)])
    pendingJob hv rfl rfl⟩

/-- Claim C6 (code bug): the progressive video branch installs an error
handler only on the read stream (contrast the audio branch and the mux
legs); the destination write stream has none, so a write-stream error is
an unhandled error event: the orchestration stops with no terminal store
write, the job keeps status downloading and its last chunk progress, and
no failed write with progress 0 ever happens, against the claim that every
background error is caught at the job boundary and converted into a failed
record. -/
theorem c6_video_write_error_leaves_job_downloading :
    videoOutcomeCrashes (.writeError [(5, 10)]) = true ∧
    (applyAll pendingJob
      (startDownloadVideoUpdates "job-1" "mp4" (.writeError [(5, 10)]))).status =
        "downloading" ∧
    (applyAll pendingJob
      (startDownloadVideoUpdates "job-1" "mp4" (.writeError [(5, 10)]))).progress = 50 ∧
    ∀ u ∈ startDownloadVideoUpdates "job-1" "mp4" (.writeError [(5, 10)]),
      u.status ≠ some "failed" := by decide

/-- Claim C5: on every failing mux outcome, with the output container
derived by the code from the two streams, the cleanup removes both
temporary files and any partial final output under both possible container
extensions (in particular under the derived one), and the job ends failed
with progress 0. -/
theorem c5_mux_failure_cleanup :
    ∀ (downloadId hint : String) (videoFormat audioFormat : StreamDescriptor)
      (o : MuxOutcome) (fs : List String) (init : Download),
      muxOutcomeFails o = true →
      (videoTempPath downloadId ∉ startMuxDownloadFS downloadId
        (muxOutputContainer hint videoFormat audioFormat) o fs) ∧
      (audioTempPath downloadId ∉ startMuxDownloadFS downloadId
        (muxOutputContainer hint videoFormat audioFormat) o fs) ∧
      (finalPath downloadId "mp4" ∉ startMuxDownloadFS downloadId
        (muxOutputContainer hint videoFormat audioFormat) o fs) ∧
      (finalPath downloadId "webm" ∉ startMuxDownloadFS downloadId
        (muxOutputContainer hint videoFormat audioFormat) o fs) ∧
      (finalPath downloadId (muxOutputContainer hint videoFormat audioFormat) ∉
        startMuxDownloadFS downloadId
          (muxOutputContainer hint videoFormat audioFormat) o fs) ∧
      (applyAll init (startMuxDownloadUpdates downloadId
        (muxOutputContainer hint videoFormat audioFormat) o)).status = "failed" ∧
      (applyAll init (startMuxDownloadUpdates downloadId
        (muxOutputContainer hint videoFormat audioFormat) o)).progress = 0 := by
  intro downloadId hint videoFormat audioFormat o fs init hfail
  have hjob : (applyAll init (startMuxDownloadUpdates downloadId
      (muxOutputContainer hint videoFormat audioFormat) o)).status = "failed" ∧
      (applyAll init (startMuxDownloadUpdates downloadId
      (muxOutputContainer hint videoFormat audioFormat) o)).progress = 0 := by
    obtain ⟨body, t, hequ, _, htt⟩ :=
      muxUpdates_decomp downloadId (muxOutputContainer hint videoFormat audioFormat) o
    rcases htt with ⟨_, rfl⟩ | ⟨hne, _⟩
    · rw [hequ]
      exact applyAll_failedUpdate init body
    · rw [hfail] at hne
      exact Bool.noConfusion hne
  have hfs : (videoTempPath downloadId ∉ startMuxDownloadFS downloadId
      (muxOutputContainer hint videoFormat audioFormat) o fs) ∧
      (audioTempPath downloadId ∉ startMuxDownloadFS downloadId
      (muxOutputContainer hint videoFormat audioFormat) o fs) ∧
      (finalPath downloadId "mp4" ∉ startMuxDownloadFS downloadId
      (muxOutputContainer hint videoFormat audioFormat) o fs) ∧
      (finalPath downloadId "webm" ∉ startMuxDownloadFS downloadId
      (muxOutputContainer hint videoFormat audioFormat) o fs) := by
    cases o with
    | formatNotFound => exact muxErrorCleanup_clean downloadId fs
    | fetchFail events videoWritten audioWritten => exact muxErrorCleanup_clean downloadId _
    | muxFail events percents finalWritten => exact muxErrorCleanup_clean downloadId _
    | muxDone events percents finalSize =>
      exact absurd hfail (by simp [muxOutcomeFails])
  have hoc : finalPath downloadId (muxOutputContainer hint videoFormat audioFormat) ∉
      startMuxDownloadFS downloadId
        (muxOutputContainer hint videoFormat audioFormat) o fs := by
    rcases muxOutputContainer_mem hint videoFormat audioFormat with hm | hm
    · nth_rewrite 2 [hm]
      exact hfs.2.2.1
    · nth_rewrite 2 [hm]
      exact hfs.2.2.2
  exact ⟨hfs.1, hfs.2.1, hfs.2.2.1, hfs.2.2.2, hoc, hjob.1, hjob.2⟩

/-- Witness for claim C5: a mux run whose video fetch fails after the audio
temporary file was fully written ends failed, with both temporary files and
any final output absent. -/
theorem c5_mux_failure_cleanup_witness :
    muxOutcomeFails (.fetchFail [] true true) = true ∧
    (videoTempPath "w5" ∉ startMuxDownloadFS "w5"
      (muxOutputContainer "hint" { itag := "v" } { itag := "a" })
      (.fetchFail [] true true) []) ∧
    (audioTempPath "w5" ∉ startMuxDownloadFS "w5"
      (muxOutputContainer "hint" { itag := "v" } { itag := "a" })
      (.fetchFail [] true true) []) ∧
    (finalPath "w5" "mp4" ∉ startMuxDownloadFS "w5"
      (muxOutputContainer "hint" { itag := "v" } { itag := "a" })
      (.fetchFail [] true true) []) ∧
    (finalPath "w5" "webm" ∉ startMuxDownloadFS "w5"
      (muxOutputContainer "hint" { itag := "v" } { itag := "a" })
      (.fetchFail [] true true) []) ∧
    (applyAll pendingJob (startMuxDownloadUpdates "w5"
      (muxOutputContainer "hint" { itag := "v" } { itag := "a" })
      (.fetchFail [] true true))).status = "failed" ∧
    (applyAll pendingJob (startMuxDownloadUpdates "w5"
      (muxOutputContainer "hint" { itag := "v" } { itag := "a" })
      (.fetchFail [] true true))).progress = 0 := by
  have h := c5_mux_failure_cleanup "w5" "hint" { itag := "v" } { itag := "a" }
    (.fetchFail [] true true) [] pendingJob rfl
  exact ⟨rfl, h.1, h.2.1, h.2.2.1, h.2.2.2.1, h.2.2.2.2.2.1, h.2.2.2.2.2.2⟩

/-- Claim C4: after any well-formed mux event trace, once both streams have
reported a (nonzero) total, the emitted progress write carries exactly
round (((videoDownloaded / videoTotal + audioDownloaded / audioTotal) / 2) * 80)
computed from the latest values of each stream, together with the combined
size; before both streams have reported, no write is emitted. -/
theorem c4_mux_progress_formula :
    ∀ events : List MuxEvent, validMuxEvents events →
      (match lastVideoChunk events, lastAudioChunk events with
       | some (vd, vt), some (ad, ta) =>
         updateProgress (muxStateAfter events) =
           some { progress := some (round (((vd : ℚ) / vt + (ad : ℚ) / ta) / 2 * 80)),
                  fileSize := some (some (mbString (vt + ta))) }
       | _, _ => updateProgress (muxStateAfter events) = none) := by
  intro events hv
  have hvid := foldl_stepMuxState_video events {}
  have haud := foldl_stepMuxState_audio events {}
  cases hlv : lastVideoChunk events with
  | none =>
    rw [hlv] at hvid
    have htv : (muxStateAfter events).totalVideoBytes = 0 := by
      have h2 := congrArg Prod.snd hvid
      simpa [muxStateAfter] using h2
    cases hla : lastAudioChunk events with
    | none =>
      show updateProgress (muxStateAfter events) = none
      simp [updateProgress, htv]
    | some ap =>
      obtain ⟨ad, ta⟩ := ap
      show updateProgress (muxStateAfter events) = none
      simp [updateProgress, htv]
  | some vp =>
    obtain ⟨vd, vt⟩ := vp
    rw [hlv, Option.getD_some] at hvid
    cases hla : lastAudioChunk events with
    | none =>
      rw [hla] at haud
      have hta : (muxStateAfter events).totalAudioBytes = 0 := by
        have h2 := congrArg Prod.snd haud
        simpa [muxStateAfter] using h2
      show updateProgress (muxStateAfter events) = none
      simp [updateProgress, hta]
    | some ap =>
      obtain ⟨ad, ta⟩ := ap
      rw [hla, Option.getD_some] at haud
      have hvid2 : ((muxStateAfter events).videoBytes,
          (muxStateAfter events).totalVideoBytes) = (vd, vt) := hvid
      have haud2 : ((muxStateAfter events).audioBytes,
          (muxStateAfter events).totalAudioBytes) = (ad, ta) := haud
      rw [Prod.mk.injEq] at hvid2 haud2
      have hvt : 0 < vt := by
        simpa [eventTotal] using (hv _ (lastVideoChunk_mem hlv)).1
      have hta : 0 < ta := by
        simpa [eventTotal] using (hv _ (lastAudioChunk_mem hla)).1
      show updateProgress (muxStateAfter events) =
        some { progress := some (round (((vd : ℚ) / vt + (ad : ℚ) / ta) / 2 * 80)),
               fileSize := some (some (mbString (vt + ta))) }
      have hval : ((jsRoundRatio (40 * (vd * ta + ad * vt)) (vt * ta) : Int)) =
          round (((vd : ℚ) / vt + (ad : ℚ) / ta) / 2 * 80) := by
        rw [jsRoundRatio_eq_round _ (Nat.mul_pos hvt hta)]
        congr 1
        have hvt0 : (vt : ℚ) ≠ 0 := Nat.cast_ne_zero.mpr hvt.ne'
        have hta0 : (ta : ℚ) ≠ 0 := Nat.cast_ne_zero.mpr hta.ne'
        push_cast
        field_simp
        ring
      have hcond : ((muxStateAfter events).totalVideoBytes > 0 &&
          (muxStateAfter events).totalAudioBytes > 0) = true := by
        simp only [hvid2.2, haud2.2, gt_iff_lt, Bool.and_eq_true, decide_eq_true_eq]
        exact ⟨hvt, hta⟩
      unfold updateProgress
      rw [if_pos hcond]
      rw [hvid2.1, hvid2.2, haud2.1, haud2.2]
      rw [hval]

/-- Witness for claim C4 at a concrete event trace with both totals
reported. -/
theorem c4_mux_progress_formula_witness :
    validMuxEvents [MuxEvent.videoChunk 5 10, MuxEvent.audioChunk 3 4] ∧
    updateProgress (muxStateAfter [MuxEvent.videoChunk 5 10, MuxEvent.audioChunk 3 4]) =
      some { progress := some (round (((5 : ℚ) / 10 + (3 : ℚ) / 4) / 2 * 80)),
             fileSize := some (some (mbString (10 + 4))) } := by
  have hv : validMuxEvents [MuxEvent.videoChunk 5 10, MuxEvent.audioChunk 3 4] := by
    intro e he
    fin_cases he <;> simp [eventTotal, eventDownloaded]
  exact ⟨hv, c4_mux_progress_formula [MuxEvent.videoChunk 5 10, MuxEvent.audioChunk 3 4] hv⟩
